import Mathlib

/-!
Verification development for the `colonel` CoNLL-U lexer
(`src/colonel/conllu/lexer.py`, class `ConlluLexerBuilder`).

The lexer is a PLY-based column-aware state machine.  We shallowly embed it:
the input buffer is a `List Char`; every PLY token rule becomes a matcher
`List Char → Option (lexeme × rest)` implementing the rule's regular
expression with the greedy, first-alternative-wins semantics of Python's
`re` applied by PLY (rules of a state are tried in their order of
definition in the source file); every rule body becomes a decoding function
from the matched lexeme to a token value.  `step` performs one `token()`
call; `tokenize` drives the lexer to the end of the input.

Python exceptions escaping a decoder (`ValueError` from `int(...)` or
`str.index(...)`) are modelled by the decoders returning `none`, which
`step` turns into `LexError.decodeFailure`.  PLY's
`IllegalCharacterError` (rule `t_ANY_error`) is modelled by
`LexError.illegalCharacter` carrying the same payload as the Python class:
the lexer's current line number and the column computed by `find_column`,
plus the offending character `token.value[0]`.
-/

namespace Colonel

/-! ### Character classes (ASCII ranges of the source's regex classes) -/

/-- Class `[0-9]`. -/
def isDigitCh (c : Char) : Bool := 48 ≤ c.toNat && c.toNat ≤ 57

/-- Class `[1-9]`. -/
def isNonzeroCh (c : Char) : Bool := 49 ≤ c.toNat && c.toNat ≤ 57

/-- Leading class `[A-Z0-9]` of `_feat_name` and `_feat_value`. -/
def isFeatLeadCh (c : Char) : Bool :=
  (65 ≤ c.toNat && c.toNat ≤ 90) || isDigitCh c

/-- Class `[A-Z0-9a-z]` (tail of `_feat_name`). -/
def isFeatNameCh (c : Char) : Bool :=
  isFeatLeadCh c || (97 ≤ c.toNat && c.toNat ≤ 122)

/-- Class `[a-zA-Z0-9]` (tail of `_feat_value`). -/
def isFeatValueCh (c : Char) : Bool :=
  isFeatLeadCh c || (97 ≤ c.toNat && c.toNat ≤ 122)

/-- Class `[a-z0-9]` (bracketed sub-key of `_feat_name`). -/
def isBracketCh (c : Char) : Bool :=
  (97 ≤ c.toNat && c.toNat ≤ 122) || isDigitCh c

/-- Class `[^\n\t]` (rules `t_c1_FORM`, `t_c2_LEMMA`). -/
def isFormCh (c : Char) : Bool := !(c == '\n' || c == '\t')

/-- Class `[^\n\t ]` (rules `t_c4_XPOS`, `t_c7_DEPREL`, `t_c9_MISC` and the
`_dep_deprel` sub-pattern). -/
def isXposCh (c : Char) : Bool := !(c == '\n' || c == '\t' || c == ' ')

/-- ASCII whitespace stripped by Python's `str.strip()`. -/
def isPySpaceCh (c : Char) : Bool := c == ' ' || (9 ≤ c.toNat && c.toNat ≤ 13)

/-! ### Small string utilities used by the decoders -/

/-- Python's `str.split(sep)` for a one-character separator. -/
def splitOnChar (sep : Char) : List Char → List (List Char)
  | [] => [[]]
  | c :: cs =>
    if c = sep then [] :: splitOnChar sep cs
    else
      match splitOnChar sep cs with
      | h :: t => (c :: h) :: t
      | [] => [[c]]

/-- Python's pair `x[:x.index(sep)]`, `x[x.index(sep)+1:]`: split at the
first character satisfying `p`; `none` models the `ValueError` raised by
`str.index` when no such character exists. -/
def splitAtFirst (p : Char → Bool) : List Char → Option (List Char × List Char)
  | [] => none
  | c :: cs =>
    if p c then some ([], cs)
    else (splitAtFirst p cs).map (fun q => (c :: q.1, q.2))

/-- Numeric value of a digit string (the value computed by Python's
`int(...)` on a string of decimal digits). -/
def parseNatD (cs : List Char) : Nat :=
  cs.foldl (fun a c => a * 10 + (c.toNat - 48)) 0

/-- Python's `int(...)`: `none` models the `ValueError` raised on a string
that is not a plain run of decimal digits (the sign/whitespace forms
accepted by `int` never arise from the lexer's digit-only lexemes). -/
def parseNat (cs : List Char) : Option Nat :=
  if cs.isEmpty then none
  else if cs.all isDigitCh then some (parseNatD cs) else none

/-- Python's `str.strip()` on ASCII input. -/
def pyStrip (cs : List Char) : List Char :=
  ((cs.dropWhile isPySpaceCh).reverse.dropWhile isPySpaceCh).reverse

/-- Mapping of a fallible function over a list, failing if any element
fails: models Python's `tuple(f(x) for x in xs)` when `f` can raise. -/
def mapOrNone (f : α → Option β) : List α → Option (List β)
  | [] => some []
  | x :: xs =>
    match f x, mapOrNone f xs with
    | some y, some ys => some (y :: ys)
    | _, _ => none

/-! ### Matchers

Each matcher implements one rule's regular expression at the cursor: it
returns `some (lexeme, rest)` where `lexeme ++ rest` is the input it was
given and `lexeme` is the text the greedy Python regex match consumes, or
`none` when the regex does not match at the cursor.  Character-class
repetitions are maximal munch (`takeWhile`), which coincides with Python's
greedy semantics for these patterns because no repetition can consume the
character required next (e.g. digits never consume the `-` of
`t_RANGE_ID`). -/

/-- Sub-pattern `[1-9][0-9]*` (rules `t_INTEGER_ID`, both sides of
`t_RANGE_ID`, and the minor part of `t_DECIMAL_ID`). -/
def nonzeroDigitsPat : List Char → Option (List Char × List Char)
  | [] => none
  | c :: cs =>
    if isNonzeroCh c then some (c :: cs.takeWhile isDigitCh, cs.dropWhile isDigitCh)
    else none

/-- Sub-pattern `([1-9][0-9]+|[0-9])`: `_dep_head`, the major part of
`t_DECIMAL_ID` and the numeric alternative of `t_c6_HEAD`.  The first
alternative needs at least two digits and no leading zero; otherwise a
single digit is taken. -/
def depHeadPat : List Char → Option (List Char × List Char)
  | [] => none
  | c :: cs =>
    if isNonzeroCh c && !(cs.takeWhile isDigitCh).isEmpty then
      some (c :: cs.takeWhile isDigitCh, cs.dropWhile isDigitCh)
    else if isDigitCh c then some ([c], cs)
    else none

/-- Maximal nonempty run of a character class, pattern `class+`. -/
def runPat (p : Char → Bool) (cs : List Char) : Option (List Char × List Char) :=
  if (cs.takeWhile p).isEmpty then none else some (cs.takeWhile p, cs.dropWhile p)

/-- Rule `t_COMMENT`, regex `[#][^\n]*`. -/
def t_COMMENT_match : List Char → Option (List Char × List Char)
  | [] => none
  | c :: cs =>
    if c = '#' then
      some (c :: cs.takeWhile (fun c => !(c == '\n')), cs.dropWhile (fun c => !(c == '\n')))
    else none

/-- Rule `t_RANGE_ID`, regex `[1-9][0-9]*-[1-9][0-9]*`. -/
def t_RANGE_ID_match (cs : List Char) : Option (List Char × List Char) :=
  match nonzeroDigitsPat cs with
  | some (d1, r1) =>
    match r1 with
    | c :: r2 =>
      if c = '-' then
        match nonzeroDigitsPat r2 with
        | some (d2, r3) => some (d1 ++ c :: d2, r3)
        | none => none
      else none
    | [] => none
  | none => none

/-- Rule `t_DECIMAL_ID`, regex `([1-9][0-9]+|[0-9])\.[1-9][0-9]*`. -/
def t_DECIMAL_ID_match (cs : List Char) : Option (List Char × List Char) :=
  match depHeadPat cs with
  | some (mj, r1) =>
    match r1 with
    | c :: r2 =>
      if c = '.' then
        match nonzeroDigitsPat r2 with
        | some (mi, r3) => some (mj ++ c :: mi, r3)
        | none => none
      else none
    | [] => none
  | none => none

/-- Rule `t_INTEGER_ID`, regex `[1-9][0-9]*`. -/
def t_INTEGER_ID_match (cs : List Char) : Option (List Char × List Char) :=
  nonzeroDigitsPat cs

/-- Rule `t_c1_FORM`, regex `[^\n\t]+`. -/
def t_c1_FORM_match (cs : List Char) : Option (List Char × List Char) :=
  runPat isFormCh cs

/-- Rule `t_c2_LEMMA`, regex `[^\n\t]+`. -/
def t_c2_LEMMA_match (cs : List Char) : Option (List Char × List Char) :=
  runPat isFormCh cs

/-- Rule `t_c3_UPOS`, regex `_upos = (tag1|tag2|...|_)`: the alternation
over the injected tag registry's names followed by the literal `_`.
Python's alternation takes the first alternative that matches at the
cursor, i.e. the first registry name that is a prefix of the input. -/
def t_c3_UPOS_match (tags : List (List Char)) (cs : List Char) :
    Option (List Char × List Char) :=
  match tags.find? (fun t => t.isPrefixOf cs) with
  | some t => some (t, cs.drop t.length)
  | none =>
    match cs with
    | c :: r => if c = '_' then some ([c], r) else none
    | [] => none

/-- Rule `t_c4_XPOS`, regex `[^\n\t ]+`. -/
def t_c4_XPOS_match (cs : List Char) : Option (List Char × List Char) :=
  runPat isXposCh cs

/-- Sub-pattern `_feat_name = [A-Z0-9][A-Z0-9a-z]*(\[[a-z0-9]+\])?`.  The
optional bracket group is taken when it matches completely, otherwise it is
skipped (Python's backtracking gives the same overall result because the
next pattern character is `=`, which can match neither `[` nor a name
character). -/
def featNamePat : List Char → Option (List Char × List Char)
  | [] => none
  | c :: cs =>
    if isFeatLeadCh c then
      let run := cs.takeWhile isFeatNameCh
      let r1 := cs.dropWhile isFeatNameCh
      match r1 with
      | d :: r2 =>
        if d = '[' then
          let br := r2.takeWhile isBracketCh
          match r2.dropWhile isBracketCh with
          | e :: r3 =>
            if e = ']' then
              if br.isEmpty then some (c :: run, r1)
              else some (c :: run ++ d :: br ++ [e], r3)
            else some (c :: run, r1)
          | [] => some (c :: run, r1)
        else some (c :: run, r1)
      | [] => some (c :: run, r1)
    else none

/-- Sub-pattern `_feat_value = [A-Z0-9][a-zA-Z0-9]*`. -/
def featValuePat : List Char → Option (List Char × List Char)
  | [] => none
  | c :: cs =>
    if isFeatLeadCh c then some (c :: cs.takeWhile isFeatValueCh, cs.dropWhile isFeatValueCh)
    else none

/-- Iterations of `(,{_feat_value})*`.  The fuel argument only bounds the
recursion; every iteration consumes at least two characters, so a call
with `fuel = length of the input` never exhausts it. -/
def moreFeatValues : Nat → List Char → List Char × List Char
  | 0, cs => ([], cs)
  | _ + 1, [] => ([], [])
  | fuel + 1, c :: r =>
    if c = ',' then
      match featValuePat r with
      | some (v, r') =>
        (match moreFeatValues fuel r' with
         | (m, r'') => (c :: (v ++ m), r''))
      | none => ([], c :: r)
    else ([], c :: r)

/-- Sub-pattern `_feat_values = {_feat_value}(,{_feat_value})*`. -/
def featValuesPat (cs : List Char) : Option (List Char × List Char) :=
  match featValuePat cs with
  | some (v, r) =>
    match moreFeatValues r.length r with
    | (m, r') => some (v ++ m, r')
  | none => none

/-- Sub-pattern `_feat_pair = {_feat_name}={_feat_values}`. -/
def featPairPat (cs : List Char) : Option (List Char × List Char) :=
  match featNamePat cs with
  | some (nm, r1) =>
    match r1 with
    | c :: r2 =>
      if c = '=' then
        match featValuesPat r2 with
        | some (vs, r3) => some (nm ++ c :: vs, r3)
        | none => none
      else none
    | [] => none
  | none => none

/-- Iterations of `([|]{_feat_pair})*` (fuelled like `moreFeatValues`). -/
def moreFeatPairs : Nat → List Char → List Char × List Char
  | 0, cs => ([], cs)
  | _ + 1, [] => ([], [])
  | fuel + 1, c :: r =>
    if c = '|' then
      match featPairPat r with
      | some (p, r') =>
        (match moreFeatPairs fuel r' with
         | (m, r'') => (c :: (p ++ m), r''))
      | none => ([], c :: r)
    else ([], c :: r)

/-- Rule `t_c5_FEATS`, regex `_feats = ({_feat_pair}([|]{_feat_pair})*)|_`. -/
def t_c5_FEATS_match (cs : List Char) : Option (List Char × List Char) :=
  match featPairPat cs with
  | some (p, r) =>
    match moreFeatPairs r.length r with
    | (m, r') => some (p ++ m, r')
  | none =>
    match cs with
    | c :: r => if c = '_' then some ([c], r) else none
    | [] => none

/-- Rule `t_c6_HEAD`, regex `([1-9][0-9]+|[0-9])|_`. -/
def t_c6_HEAD_match (cs : List Char) : Option (List Char × List Char) :=
  match depHeadPat cs with
  | some p => some p
  | none =>
    match cs with
    | c :: r => if c = '_' then some ([c], r) else none
    | [] => none

/-- Rule `t_c7_DEPREL`, regex `[^\n\t ]+`. -/
def t_c7_DEPREL_match (cs : List Char) : Option (List Char × List Char) :=
  runPat isXposCh cs

/-- Sub-pattern `_dep_pair = {_dep_head}:{_dep_deprel}` with
`_dep_deprel = [^\n\t ]+`.  Note that the greedy deprel run also consumes
`|` and `:` characters. -/
def depPairPat (cs : List Char) : Option (List Char × List Char) :=
  match depHeadPat cs with
  | some (h, r1) =>
    match r1 with
    | c :: r2 =>
      if c = ':' then
        match runPat isXposCh r2 with
        | some (d, r3) => some (h ++ c :: d, r3)
        | none => none
      else none
    | [] => none
  | none => none

/-- Iterations of `([|]{_dep_pair})*` (fuelled like `moreFeatValues`). -/
def moreDepPairs : Nat → List Char → List Char × List Char
  | 0, cs => ([], cs)
  | _ + 1, [] => ([], [])
  | fuel + 1, c :: r =>
    if c = '|' then
      match depPairPat r with
      | some (p, r') =>
        (match moreDepPairs fuel r' with
         | (m, r'') => (c :: (p ++ m), r''))
      | none => ([], c :: r)
    else ([], c :: r)

/-- Rule `t_c8_DEPS`, regex `_deps = ({_dep_pair}([|]{_dep_pair})*)|_`. -/
def t_c8_DEPS_match (cs : List Char) : Option (List Char × List Char) :=
  match depPairPat cs with
  | some (p, r) =>
    match moreDepPairs r.length r with
    | (m, r') => some (p ++ m, r')
  | none =>
    match cs with
    | c :: r => if c = '_' then some ([c], r) else none
    | [] => none

/-- Rule `t_c9_MISC`, regex `[^\n\t ]+`. -/
def t_c9_MISC_match (cs : List Char) : Option (List Char × List Char) :=
  runPat isXposCh cs

/-- Rule `t_v0_v1_v2_v3_v4_v5_v6_v7_v8_TAB`, regex `\t`. -/
def t_TAB_match : List Char → Option (List Char × List Char)
  | [] => none
  | c :: r => if c = '\t' then some ([c], r) else none

/-- Rule `t_INITIAL_v9_NEWLINE`, regex `\n`. -/
def t_NEWLINE_match : List Char → Option (List Char × List Char)
  | [] => none
  | c :: r => if c = '\n' then some ([c], r) else none

/-! ### Token model -/

/-- The `tokens` tuple of `ConlluLexerBuilder`. -/
inductive TokKind where
  | NEWLINE | TAB | COMMENT | INTEGER_ID | RANGE_ID | DECIMAL_ID
  | FORM | LEMMA | UPOS | XPOS | FEATS | HEAD | DEPREL | DEPS | MISC
  deriving DecidableEq

/-- The possible shapes of `token.value` after a rule body ran. -/
inductive TokValue where
  | vStr (s : List Char)
  | vInt (n : Nat)
  | vIntPair (a b : Nat)
  | vNone
  | vFeats (l : List (List Char × List (List Char)))
  | vDeps (l : List (Nat × List Char))
  deriving DecidableEq

/-- One produced `LexToken`: kind, decoded value, raw lexeme, its absolute
position in the buffer, and the lexer's line number when it was matched. -/
structure Token where
  kind : TokKind
  value : TokValue
  lexeme : List Char
  lexpos : Nat
  lineno : Nat
  deriving DecidableEq

/-- The 19 PLY lexer states declared in `ConlluLexerBuilder.states`
(plus the implicit `INITIAL`). -/
inductive LexState where
  | INITIAL
  | v0 | v1 | v2 | v3 | v4 | v5 | v6 | v7 | v8 | v9
  | c1 | c2 | c3 | c4 | c5 | c6 | c7 | c8 | c9
  deriving DecidableEq

/-- The mutable lexing state: the buffer (`lexer.lexdata`), the cursor
(`lexer.lexpos`), the line counter (`lexer.lineno`, 1-based), the current
PLY state and the builder's `_tab_count`. -/
structure LexerState where
  lexdata : List Char
  lexpos : Nat
  lineno : Nat
  stateName : LexState
  tabCount : Nat
  deriving DecidableEq

/-- Runtime failures.  `illegalCharacter` is `IllegalCharacterError`
(line number, `find_column` result, offending character);
`decodeFailure` models a Python `ValueError` escaping the named rule's
body; `badState` models `lexer.begin` on an undefined state name;
`noProgress` models PLY looping forever on a zero-width match (possible
only with an ill-formed registry containing an empty tag name). -/
inductive LexError where
  | illegalCharacter (lineno colno : Nat) (ch : Char)
  | decodeFailure (kind : TokKind) (lineno : Nat)
  | badState (lineno : Nat)
  | noProgress
  deriving DecidableEq

/-- Result of one `token()` call. -/
inductive StepRes where
  | eof
  | tok (t : Token) (st' : LexerState)
  | err (e : LexError)
  deriving DecidableEq

/-- Static method `find_column`: locate the newline preceding `lexpos` and
measure the 1-based offset from it.  `lastNlIdx` is `str.rfind('\n', 0, lexpos)`
returning `none` instead of `-1`. -/
def lastNlIdx : List Char → Option Nat
  | [] => none
  | c :: cs =>
    match lastNlIdx cs with
    | some i => some (i + 1)
    | none => if c = '\n' then some 0 else none

/-- `find_column(token)` of the source: `token.lexpos` minus the line start. -/
def find_column (lexdata : List Char) (lexpos : Nat) : Nat :=
  match lastNlIdx (lexdata.take lexpos) with
  | some i => lexpos - (i + 1) + 1
  | none => lexpos + 1

/-! ### Decoders (the rule bodies acting on `token.value`) -/

/-- Body of `t_COMMENT`: `token.value[1:].strip()`. -/
def t_COMMENT_value (lex : List Char) : TokValue :=
  .vStr (pyStrip (lex.drop 1))

/-- Body of `t_RANGE_ID`: `tuple(map(int, token.value.split('-')))` (the
lexeme always holds exactly one `-`, so the tuple is a pair). -/
def t_RANGE_ID_value (lex : List Char) : Option TokValue :=
  match splitOnChar '-' lex with
  | [a, b] =>
    match parseNat a, parseNat b with
    | some x, some y => some (.vIntPair x y)
    | _, _ => none
  | _ => none

/-- Body of `t_DECIMAL_ID`: `tuple(map(int, token.value.split('.')))`. -/
def t_DECIMAL_ID_value (lex : List Char) : Option TokValue :=
  match splitOnChar '.' lex with
  | [a, b] =>
    match parseNat a, parseNat b with
    | some x, some y => some (.vIntPair x y)
    | _, _ => none
  | _ => none

/-- Body of `t_INTEGER_ID`: `int(token.value)`. -/
def t_INTEGER_ID_value (lex : List Char) : Option TokValue :=
  (parseNat lex).map .vInt

/-- Body of `t_c3_UPOS`: `None if token.value == '_' else token.value`. -/
def t_c3_UPOS_value (lex : List Char) : TokValue :=
  if lex = ['_'] then .vNone else .vStr lex

/-- Body of `t_c4_XPOS`: `None if token.value == '_' else token.value`. -/
def t_c4_XPOS_value (lex : List Char) : TokValue :=
  if lex = ['_'] then .vNone else .vStr lex

/-- Body of `t_c5_FEATS`: `None` for `_`, otherwise for each `x` in
`token.value.split('|')` the pair `(x[:x.index('=')],
tuple(x[x.index('=')+1:].split(',')))`. -/
def t_c5_FEATS_value (lex : List Char) : Option TokValue :=
  if lex = ['_'] then some .vNone
  else
    (mapOrNone
      (fun x =>
        match splitAtFirst (fun c => c == '=') x with
        | some (nm, rest) => some (nm, splitOnChar ',' rest)
        | none => none)
      (splitOnChar '|' lex)).map .vFeats

/-- Body of `t_c6_HEAD`: `None if token.value == '_' else int(token.value)`. -/
def t_c6_HEAD_value (lex : List Char) : Option TokValue :=
  if lex = ['_'] then some .vNone else (parseNat lex).map .vInt

/-- Body of `t_c7_DEPREL`: `None if token.value == '_' else token.value`. -/
def t_c7_DEPREL_value (lex : List Char) : TokValue :=
  if lex = ['_'] then .vNone else .vStr lex

/-- Body of `t_c8_DEPS`: `None` for `_`, otherwise for each `x` in
`token.value.split('|')` the pair `(int(x[:x.index(':')]),
x[x.index(':')+1:])`. -/
def t_c8_DEPS_value (lex : List Char) : Option TokValue :=
  if lex = ['_'] then some .vNone
  else
    (mapOrNone
      (fun x =>
        match splitAtFirst (fun c => c == ':') x with
        | some (hd, rest) =>
          match parseNat hd with
          | some n => some (n, rest)
          | none => none
        | none => none)
      (splitOnChar '|' lex)).map .vDeps

/-- Body of `t_c9_MISC`: `None if token.value == '_' else token.value`. -/
def t_c9_MISC_value (lex : List Char) : TokValue :=
  if lex = ['_'] then .vNone else .vStr lex

/-! ### The state machine -/

/-- The state name `f'c{n}'` used by the TAB rule's `lexer.begin`:
defined for `n = 1..9`, otherwise `none` (an undefined PLY state). -/
def cStateOf (n : Nat) : Option LexState :=
  if n = 1 then some .c1
  else if n = 2 then some .c2
  else if n = 3 then some .c3
  else if n = 4 then some .c4
  else if n = 5 then some .c5
  else if n = 6 then some .c6
  else if n = 7 then some .c7
  else if n = 8 then some .c8
  else if n = 9 then some .c9
  else none

/-- Emit a token for the matched `lex`, advancing the cursor and moving to
state `next` with the given tab counter and line number. -/
def emit (st : LexerState) (k : TokKind) (v : TokValue) (lex : List Char)
    (next : LexState) (tab lin : Nat) : StepRes :=
  .tok ⟨k, v, lex, st.lexpos, st.lineno⟩
    ⟨st.lexdata, st.lexpos + lex.length, lin, next, tab⟩

/-- Like `emit`, for rules whose body can raise (`emitD _ k none …` is the
`ValueError` escaping rule `k`). -/
def emitD (st : LexerState) (k : TokKind) (v : Option TokValue) (lex : List Char)
    (next : LexState) (tab lin : Nat) : StepRes :=
  match v with
  | some v => emit st k v lex next tab lin
  | none => .err (.decodeFailure k st.lineno)

/-- Rule `t_ANY_error`: `IllegalCharacterError` for the character at the
cursor. -/
def illegalAt (st : LexerState) (c : Char) : StepRes :=
  .err (.illegalCharacter st.lineno (find_column st.lexdata st.lexpos) c)

/-- One `token()` call on a nonempty cursor `c :: tl`.  Within each state
the rules are tried in their order of definition in the source file
(PLY adds function rules to a state's master regex in definition order):
`INITIAL`: COMMENT, RANGE_ID, DECIMAL_ID, INTEGER_ID, NEWLINE;
`v0`..`v8`: TAB; `v9`: NEWLINE; `c1`..`c9`: the single column rule. -/
def stepAt (tags : List (List Char)) (st : LexerState) (c : Char)
    (tl : List Char) : StepRes :=
  match st.stateName with
  | .INITIAL =>
    match t_COMMENT_match (c :: tl) with
    | some (lex, _) => emit st .COMMENT (t_COMMENT_value lex) lex .INITIAL st.tabCount st.lineno
    | none =>
      match t_RANGE_ID_match (c :: tl) with
      | some (lex, _) => emitD st .RANGE_ID (t_RANGE_ID_value lex) lex .v0 st.tabCount st.lineno
      | none =>
        match t_DECIMAL_ID_match (c :: tl) with
        | some (lex, _) =>
          emitD st .DECIMAL_ID (t_DECIMAL_ID_value lex) lex .v0 st.tabCount st.lineno
        | none =>
          match t_INTEGER_ID_match (c :: tl) with
          | some (lex, _) =>
            emitD st .INTEGER_ID (t_INTEGER_ID_value lex) lex .v0 st.tabCount st.lineno
          | none =>
            match t_NEWLINE_match (c :: tl) with
            | some (lex, _) => emit st .NEWLINE (.vStr lex) lex .INITIAL 0 (st.lineno + 1)
            | none => illegalAt st c
  | .v0 | .v1 | .v2 | .v3 | .v4 | .v5 | .v6 | .v7 | .v8 =>
    match t_TAB_match (c :: tl) with
    | some (lex, _) =>
      match cStateOf (st.tabCount + 1) with
      | some nxt => emit st .TAB (.vStr lex) lex nxt (st.tabCount + 1) st.lineno
      | none => .err (.badState st.lineno)
    | none => illegalAt st c
  | .v9 =>
    match t_NEWLINE_match (c :: tl) with
    | some (lex, _) => emit st .NEWLINE (.vStr lex) lex .INITIAL 0 (st.lineno + 1)
    | none => illegalAt st c
  | .c1 =>
    match t_c1_FORM_match (c :: tl) with
    | some (lex, _) => emit st .FORM (.vStr lex) lex .v1 st.tabCount st.lineno
    | none => illegalAt st c
  | .c2 =>
    match t_c2_LEMMA_match (c :: tl) with
    | some (lex, _) => emit st .LEMMA (.vStr lex) lex .v2 st.tabCount st.lineno
    | none => illegalAt st c
  | .c3 =>
    match t_c3_UPOS_match tags (c :: tl) with
    | some (lex, _) => emit st .UPOS (t_c3_UPOS_value lex) lex .v3 st.tabCount st.lineno
    | none => illegalAt st c
  | .c4 =>
    match t_c4_XPOS_match (c :: tl) with
    | some (lex, _) => emit st .XPOS (t_c4_XPOS_value lex) lex .v4 st.tabCount st.lineno
    | none => illegalAt st c
  | .c5 =>
    match t_c5_FEATS_match (c :: tl) with
    | some (lex, _) => emitD st .FEATS (t_c5_FEATS_value lex) lex .v5 st.tabCount st.lineno
    | none => illegalAt st c
  | .c6 =>
    match t_c6_HEAD_match (c :: tl) with
    | some (lex, _) => emitD st .HEAD (t_c6_HEAD_value lex) lex .v6 st.tabCount st.lineno
    | none => illegalAt st c
  | .c7 =>
    match t_c7_DEPREL_match (c :: tl) with
    | some (lex, _) => emit st .DEPREL (t_c7_DEPREL_value lex) lex .v7 st.tabCount st.lineno
    | none => illegalAt st c
  | .c8 =>
    match t_c8_DEPS_match (c :: tl) with
    | some (lex, _) => emitD st .DEPS (t_c8_DEPS_value lex) lex .v8 st.tabCount st.lineno
    | none => illegalAt st c
  | .c9 =>
    match t_c9_MISC_match (c :: tl) with
    | some (lex, _) => emit st .MISC (t_c9_MISC_value lex) lex .v9 st.tabCount st.lineno
    | none => illegalAt st c

/-- One `token()` call: `eof` when the cursor reached the end of the
buffer, otherwise dispatch on the current state. -/
def step (tags : List (List Char)) (st : LexerState) : StepRes :=
  match st.lexdata.drop st.lexpos with
  | [] => .eof
  | c :: tl => stepAt tags st c tl

/-- A fresh lexer over `input`: `INITIAL` state, cursor 0, line 1, tab
counter 0. -/
def initLexer (input : List Char) : LexerState :=
  ⟨input, 0, 1, .INITIAL, 0⟩

/-- Drive the lexer until the input is exhausted or an error stops it.
The fuel argument only bounds the recursion: every rule of the grammar
matches at least one character, so the `input.length + 1` fuel supplied by
`conlluLex` can run out only when some rule matched the empty string;
`LexError.noProgress` then models PLY looping forever, which requires an
ill-formed registry containing an empty tag name. -/
def tokenize (tags : List (List Char)) : Nat → LexerState → Except LexError (List Token)
  | 0, _ => .error .noProgress
  | fuel + 1, st =>
    match step tags st with
    | .eof => .ok []
    | .err e => .error e
    | .tok t st' =>
      match tokenize tags fuel st' with
      | .ok l => .ok (t :: l)
      | .error e => .error e

/-- Tokenize a whole input buffer with the given tag registry. -/
def conlluLex (tags : List (List Char)) (input : List Char) :
    Except LexError (List Token) :=
  tokenize tags (input.length + 1) (initLexer input)

/-! ### Specification-side definitions -/

/-- Modelled from the spec: the external Tag Registry
(`colonel.upostag.UposTag`, which is not under `src/`) — "an ordered,
closed set of valid part-of-speech tag name strings, injected into the
lexer at construction".  The spec does not enumerate the set; its examples
require it to contain `DET` and `NOUN`, so the concrete theorems use this
registry. -/
def specTagRegistry : List (List Char) :=
  ["DET".data, "NOUN".data]

/-- Written from the spec's words for FEATS decoding: "split on `|`; …
each segment splits at its first `=` into name and a comma-split ordered
list of values". -/
def specFeatsSplit (lex : List Char) : List (List Char × List (List Char)) :=
  (splitOnChar '|' lex).map (fun x =>
    (x.takeWhile (fun c => !(c == '=')),
     splitOnChar ',' ((x.dropWhile (fun c => !(c == '='))).drop 1)))

/-- The number of tabs consumed since the last newline that each state
encodes: `INITIAL` and `v0` mean no tab yet, `v{i}`/`c{i}` mean `i` tabs. -/
def stateTabOf : LexState → Nat
  | .INITIAL => 0
  | .v0 => 0 | .v1 => 1 | .v2 => 2 | .v3 => 3 | .v4 => 4
  | .v5 => 5 | .v6 => 6 | .v7 => 7 | .v8 => 8 | .v9 => 9
  | .c1 => 1 | .c2 => 2 | .c3 => 3 | .c4 => 4 | .c5 => 5
  | .c6 => 6 | .c7 => 7 | .c8 => 8 | .c9 => 9

/-- The builder's `_tab_count` agrees with the column the state encodes. -/
def stateInv (st : LexerState) : Prop :=
  st.tabCount = stateTabOf st.stateName

/-! ### Character-class facts -/

theorem isNonzeroCh_isDigitCh {c : Char} (h : isNonzeroCh c = true) :
    isDigitCh c = true := by
  simp only [isNonzeroCh, Bool.and_eq_true, decide_eq_true_eq] at h
  simp only [isDigitCh, Bool.and_eq_true, decide_eq_true_eq]
  omega

theorem isDigitCh_ne {c : Char} (h : isDigitCh c = true) :
    c ≠ '-' ∧ c ≠ '.' ∧ c ≠ ':' ∧ c ≠ '|' ∧ c ≠ '_' := by
  simp only [isDigitCh, Bool.and_eq_true, decide_eq_true_eq] at h
  refine ⟨?_, ?_, ?_, ?_, ?_⟩ <;> rintro rfl <;> revert h <;> decide

theorem isNonzeroCh_ne_zero {c : Char} (h : isNonzeroCh c = true) : c ≠ '0' := by
  simp only [isNonzeroCh, Bool.and_eq_true, decide_eq_true_eq] at h
  rintro rfl; revert h; decide

theorem isFeatLeadCh_isFeatNameCh {c : Char} (h : isFeatLeadCh c = true) :
    isFeatNameCh c = true := by
  simp [isFeatNameCh, h]

theorem isFeatLeadCh_isFeatValueCh {c : Char} (h : isFeatLeadCh c = true) :
    isFeatValueCh c = true := by
  simp [isFeatValueCh, h]

theorem isFeatNameCh_ne {c : Char} (h : isFeatNameCh c = true) :
    c ≠ '|' ∧ c ≠ '=' := by
  simp only [isFeatNameCh, isFeatLeadCh, isDigitCh, Bool.or_eq_true, Bool.and_eq_true,
    decide_eq_true_eq] at h
  constructor <;> rintro rfl <;> revert h <;> decide

theorem isFeatValueCh_ne {c : Char} (h : isFeatValueCh c = true) :
    c ≠ '|' ∧ c ≠ '=' := by
  simp only [isFeatValueCh, isFeatLeadCh, isDigitCh, Bool.or_eq_true, Bool.and_eq_true,
    decide_eq_true_eq] at h
  constructor <;> rintro rfl <;> revert h <;> decide

theorem isBracketCh_ne {c : Char} (h : isBracketCh c = true) :
    c ≠ '|' ∧ c ≠ '=' := by
  simp only [isBracketCh, isDigitCh, Bool.or_eq_true, Bool.and_eq_true,
    decide_eq_true_eq] at h
  constructor <;> rintro rfl <;> revert h <;> decide

/-! ### Facts about the string utilities -/

theorem splitOnChar_sep_free {sep : Char} :
    ∀ {l : List Char}, (∀ c ∈ l, c ≠ sep) → splitOnChar sep l = [l]
  | [], _ => rfl
  | c :: cs, h => by
    have hc : c ≠ sep := h c (by simp)
    have ih := splitOnChar_sep_free (l := cs) (fun x hx => h x (by simp [hx]))
    simp [splitOnChar, hc, ih]

theorem splitOnChar_append {sep : Char} (b : List Char) :
    ∀ (a : List Char), (∀ c ∈ a, c ≠ sep) →
      splitOnChar sep (a ++ sep :: b) = a :: splitOnChar sep b
  | [], _ => by simp [splitOnChar]
  | c :: a, h => by
    have hc : c ≠ sep := h c (by simp)
    have ih := splitOnChar_append b a (fun x hx => h x (by simp [hx]))
    simp [splitOnChar, hc, ih]

theorem splitAtFirst_parts {p : Char → Bool} :
    ∀ {x a b : List Char}, splitAtFirst p x = some (a, b) →
      a = x.takeWhile (fun c => !(p c)) ∧ b = (x.dropWhile (fun c => !(p c))).drop 1
  | [], a, b, h => by simp [splitAtFirst] at h
  | c :: cs, a, b, h => by
    by_cases hc : p c
    · simp [splitAtFirst, hc] at h
      simp [List.takeWhile_cons, List.dropWhile_cons, hc, ← h.1, ← h.2]
    · simp only [splitAtFirst, hc, Bool.false_eq_true, if_false, Option.map_eq_some'] at h
      obtain ⟨⟨a', b'⟩, hsp, heq⟩ := h
      obtain ⟨ha, hb⟩ := splitAtFirst_parts hsp
      simp only [Prod.mk.injEq] at heq
      simp [List.takeWhile_cons, List.dropWhile_cons, hc, ← heq.1, ← heq.2, ha, hb]

theorem splitAtFirst_append {p : Char → Bool} (b : List Char) {c : Char} (hc : p c = true) :
    ∀ (a : List Char), (∀ y ∈ a, p y = false) →
      splitAtFirst p (a ++ c :: b) = some (a, b)
  | [], _ => by simp [splitAtFirst, hc]
  | y :: a, h => by
    have hy : p y = false := h y (by simp)
    have ih := splitAtFirst_append b hc a (fun x hx => h x (by simp [hx]))
    simp [splitAtFirst, hy, ih]

theorem parseNat_of_digits {cs : List Char} (h1 : cs ≠ [])
    (h2 : ∀ c ∈ cs, isDigitCh c = true) : parseNat cs = some (parseNatD cs) := by
  rw [parseNat, if_neg, if_pos]
  · exact List.all_eq_true.2 h2
  · simp [List.isEmpty_iff, h1]

theorem parseNat_some_eq {cs : List Char} {v : Nat} (h : parseNat cs = some v) :
    v = parseNatD cs := by
  rw [parseNat] at h
  split at h
  · simp at h
  · split at h
    · simpa using h.symm
    · simp at h

theorem parseNatD_foldl_le (cs : List Char) :
    ∀ acc : Nat, acc ≤ List.foldl (fun a c => a * 10 + (c.toNat - 48)) acc cs := by
  induction cs with
  | nil => intro acc; simp
  | cons c cs ih =>
    intro acc
    calc acc ≤ acc * 10 + (c.toNat - 48) := by omega
    _ ≤ _ := by simpa using ih (acc * 10 + (c.toNat - 48))

theorem parseNatD_pos {c : Char} (cs : List Char) (h : isNonzeroCh c = true) :
    1 ≤ parseNatD (c :: cs) := by
  simp only [isNonzeroCh, Bool.and_eq_true, decide_eq_true_eq] at h
  have h1 : 1 ≤ c.toNat - 48 := by omega
  calc 1 ≤ c.toNat - 48 := h1
  _ ≤ parseNatD (c :: cs) := by
    simpa [parseNatD, List.foldl_cons] using
      parseNatD_foldl_le cs (0 * 10 + (c.toNat - 48))

theorem mapOrNone_eq_map {α β : Type} {f : α → Option β} {g : α → β} :
    ∀ {l : List α}, (∀ x ∈ l, f x = some (g x)) → mapOrNone f l = some (l.map g)
  | [], _ => rfl
  | x :: xs, h => by
    have hx : f x = some (g x) := h x (by simp)
    have ih := mapOrNone_eq_map (l := xs) (fun y hy => h y (by simp [hy]))
    simp [mapOrNone, hx, ih]

theorem takeWhile_append_sound {p : Char → Bool} (rest : List Char)
    (h2 : ∀ c r', rest = c :: r' → p c = false) :
    ∀ (pre : List Char), (∀ c ∈ pre, p c = true) →
      (pre ++ rest).takeWhile p = pre ∧ (pre ++ rest).dropWhile p = rest
  | [], _ => by
    cases rest with
    | nil => simp
    | cons c r' =>
      have := h2 c r' rfl
      simp [List.takeWhile_cons, List.dropWhile_cons, this]
  | a :: pre, h => by
    have ha : p a = true := h a (by simp)
    have ih := takeWhile_append_sound rest h2 pre (fun x hx => h x (by simp [hx]))
    simp [List.takeWhile_cons, List.dropWhile_cons, ha, ih.1, ih.2]

theorem isPrefixOf_append : ∀ (t cs : List Char), t.isPrefixOf cs = true →
      t ++ cs.drop t.length = cs
  | [], cs, _ => by simp
  | a :: t, [], h => by simp [List.isPrefixOf] at h
  | a :: t, b :: cs, h => by
    simp only [List.isPrefixOf, Bool.and_eq_true, beq_iff_eq] at h
    obtain ⟨rfl, h2⟩ := h
    simpa using isPrefixOf_append t cs h2

/-! ### Soundness of the matchers -/

theorem runPat_sound {p : Char → Bool} {cs lex rest : List Char}
    (h : runPat p cs = some (lex, rest)) :
    lex = cs.takeWhile p ∧ rest = cs.dropWhile p ∧ lex ≠ [] := by
  rw [runPat] at h
  split at h
  · exact absurd h (by simp)
  · next hne =>
    simp only [Option.some.injEq, Prod.mk.injEq] at h
    obtain ⟨rfl, rfl⟩ := h
    exact ⟨rfl, rfl, by simpa [List.isEmpty_iff] using hne⟩

theorem runPat_append {p : Char → Bool} {cs lex rest : List Char}
    (h : runPat p cs = some (lex, rest)) : lex ++ rest = cs := by
  obtain ⟨rfl, rfl, -⟩ := runPat_sound h
  exact List.takeWhile_append_dropWhile p cs

theorem runPat_mem {p : Char → Bool} {cs lex rest : List Char}
    (h : runPat p cs = some (lex, rest)) : ∀ c ∈ lex, p c = true := by
  obtain ⟨rfl, -, -⟩ := runPat_sound h
  exact fun c hc => List.mem_takeWhile_imp hc

theorem nonzeroDigitsPat_sound {cs lex rest : List Char}
    (h : nonzeroDigitsPat cs = some (lex, rest)) :
    ∃ c cs', cs = c :: cs' ∧ isNonzeroCh c = true ∧
      lex = c :: cs'.takeWhile isDigitCh ∧ rest = cs'.dropWhile isDigitCh := by
  cases cs with
  | nil => simp [nonzeroDigitsPat] at h
  | cons c cs' =>
    simp only [nonzeroDigitsPat] at h
    split at h
    · next hc =>
      simp only [Option.some.injEq, Prod.mk.injEq] at h
      exact ⟨c, cs', rfl, hc, h.1.symm, h.2.symm⟩
    · exact absurd h (by simp)

theorem nonzeroDigitsPat_props {cs lex rest : List Char}
    (h : nonzeroDigitsPat cs = some (lex, rest)) :
    lex ++ rest = cs ∧ (∀ x ∈ lex, isDigitCh x = true) ∧
      ∃ c r', lex = c :: r' ∧ isNonzeroCh c = true := by
  obtain ⟨c, cs', rfl, hc, rfl, rfl⟩ := nonzeroDigitsPat_sound h
  refine ⟨by simp, ?_, c, _, rfl, hc⟩
  intro x hx
  rcases List.mem_cons.1 hx with rfl | hx
  · exact isNonzeroCh_isDigitCh hc
  · exact List.mem_takeWhile_imp hx

theorem depHeadPat_props {cs lex rest : List Char}
    (h : depHeadPat cs = some (lex, rest)) :
    lex ++ rest = cs ∧ lex ≠ [] ∧ (∀ x ∈ lex, isDigitCh x = true) ∧
      (∀ c r', lex = c :: r' → r' = [] ∨ isNonzeroCh c = true) := by
  cases cs with
  | nil => simp [depHeadPat] at h
  | cons c cs' =>
    simp only [depHeadPat] at h
    split at h
    · next hc =>
      simp only [Bool.and_eq_true] at hc
      simp only [Option.some.injEq, Prod.mk.injEq] at h
      obtain ⟨h1, h2⟩ := h
      subst h1; subst h2
      refine ⟨by simp, by simp, ?_, ?_⟩
      · intro x hx
        rcases List.mem_cons.1 hx with rfl | hx
        · exact isNonzeroCh_isDigitCh hc.1
        · exact List.mem_takeWhile_imp hx
      · intro c' r' he
        rw [List.cons.injEq] at he
        exact Or.inr (he.1 ▸ hc.1)
    · split at h
      · next hd =>
        simp only [Option.some.injEq, Prod.mk.injEq] at h
        obtain ⟨h1, h2⟩ := h
        subst h1; subst h2
        refine ⟨by simp, by simp, ?_, ?_⟩
        · intro x hx
          rcases List.mem_cons.1 hx with rfl | hx
          · exact hd
          · simp at hx
        · intro c' r' he
          rw [List.cons.injEq] at he
          exact Or.inl he.2.symm
      · exact absurd h (by simp)

theorem featValuePat_props {cs v r : List Char}
    (h : featValuePat cs = some (v, r)) :
    v ++ r = cs ∧ v ≠ [] ∧ (∀ x ∈ v, x ≠ '|' ∧ x ≠ '=') := by
  cases cs with
  | nil => simp [featValuePat] at h
  | cons c cs' =>
    simp only [featValuePat] at h
    split at h
    · next hc =>
      simp only [Option.some.injEq, Prod.mk.injEq] at h
      obtain ⟨h1, h2⟩ := h
      subst h1; subst h2
      refine ⟨by simp, by simp, ?_⟩
      intro x hx
      rcases List.mem_cons.1 hx with rfl | hx
      · exact isFeatValueCh_ne (isFeatLeadCh_isFeatValueCh hc)
      · exact isFeatValueCh_ne (List.mem_takeWhile_imp hx)
    · exact absurd h (by simp)

theorem moreFeatValues_props : ∀ (fuel : Nat) (cs m r : List Char),
    moreFeatValues fuel cs = (m, r) →
    m ++ r = cs ∧ (∀ x ∈ m, x ≠ '|' ∧ x ≠ '=') := by
  intro fuel
  induction fuel with
  | zero =>
    intro cs m r h
    simp only [moreFeatValues, Prod.mk.injEq] at h
    obtain ⟨h1, h2⟩ := h
    subst h1; subst h2
    simp
  | succ fuel ih =>
    intro cs m r h
    cases cs with
    | nil =>
      simp only [moreFeatValues, Prod.mk.injEq] at h
      obtain ⟨h1, h2⟩ := h
      subst h1; subst h2
      simp
    | cons c cs' =>
      simp only [moreFeatValues] at h
      split at h
      · next hc =>
        subst hc
        rcases hfv : featValuePat cs' with _ | ⟨v1, r1⟩ <;> rw [hfv] at h <;>
          dsimp only at h
        · simp only [Prod.mk.injEq] at h
          obtain ⟨h1, h2⟩ := h
          subst h1; subst h2
          simp
        · rcases hmv : moreFeatValues fuel r1 with ⟨m2, r2⟩
          rw [hmv] at h
          simp only [Prod.mk.injEq] at h
          obtain ⟨h1, h2⟩ := h
          subst h1; subst h2
          obtain ⟨hap, -, hch⟩ := featValuePat_props hfv
          obtain ⟨hap2, hch2⟩ := ih r1 m2 r2 hmv
          constructor
          · simp only [List.cons_append, List.append_assoc, hap2, hap]
          · intro x hx
            rcases List.mem_cons.1 hx with rfl | hx
            · exact ⟨by decide, by decide⟩
            · rcases List.mem_append.1 hx with hx | hx
              · exact hch x hx
              · exact hch2 x hx
      · simp only [Prod.mk.injEq] at h
        obtain ⟨h1, h2⟩ := h
        subst h1; subst h2
        simp

theorem featValuesPat_props {cs vs r : List Char}
    (h : featValuesPat cs = some (vs, r)) :
    vs ++ r = cs ∧ vs ≠ [] ∧ (∀ x ∈ vs, x ≠ '|' ∧ x ≠ '=') := by
  rw [featValuesPat] at h
  rcases hfv : featValuePat cs with _ | ⟨v1, r1⟩ <;> rw [hfv] at h <;>
    dsimp only at h
  · exact absurd h (by simp)
  · rcases hmv : moreFeatValues r1.length r1 with ⟨m2, r2⟩
    rw [hmv] at h
    simp only [Option.some.injEq, Prod.mk.injEq] at h
    obtain ⟨h1, h2⟩ := h
    subst h1; subst h2
    obtain ⟨hap, hne, hch⟩ := featValuePat_props hfv
    obtain ⟨hap2, hch2⟩ := moreFeatValues_props _ _ _ _ hmv
    refine ⟨by simp only [List.append_assoc, hap2, hap], by simp [hne], ?_⟩
    intro x hx
    rcases List.mem_append.1 hx with hx | hx
    · exact hch x hx
    · exact hch2 x hx

theorem featNamePat_props {cs nm r : List Char}
    (h : featNamePat cs = some (nm, r)) :
    nm ++ r = cs ∧ nm ≠ [] ∧ (∀ x ∈ nm, x ≠ '|' ∧ x ≠ '=') := by
  cases cs with
  | nil => simp [featNamePat] at h
  | cons c cs' =>
    simp only [featNamePat] at h
    split at h
    · next hc =>
      have hcdig := isFeatNameCh_ne (isFeatLeadCh_isFeatNameCh hc)
      have hrun : ∀ x ∈ cs'.takeWhile isFeatNameCh, x ≠ '|' ∧ x ≠ '=' :=
        fun x hx => isFeatNameCh_ne (List.mem_takeWhile_imp hx)
      have hsplit : cs'.takeWhile isFeatNameCh ++ cs'.dropWhile isFeatNameCh = cs' :=
        List.takeWhile_append_dropWhile _ _
      generalize hg1 : cs'.takeWhile isFeatNameCh = run at h hrun hsplit
      generalize hg2 : cs'.dropWhile isFeatNameCh = dw at h hsplit
      cases dw with
      | nil =>
        dsimp only at h
        simp only [Option.some.injEq, Prod.mk.injEq] at h
        obtain ⟨h1, h2⟩ := h
        subst h1; subst h2
        refine ⟨by simpa using hsplit, by simp, ?_⟩
        intro x hx
        rcases List.mem_cons.1 hx with rfl | hx
        · exact hcdig
        · exact hrun x hx
      | cons d r2 =>
        dsimp only at h
        split at h
        · next hd =>
          subst hd
          have hbr : ∀ x ∈ r2.takeWhile isBracketCh, x ≠ '|' ∧ x ≠ '=' :=
            fun x hx => isBracketCh_ne (List.mem_takeWhile_imp hx)
          have hsplit2 : r2.takeWhile isBracketCh ++ r2.dropWhile isBracketCh = r2 :=
            List.takeWhile_append_dropWhile _ _
          generalize hg3 : r2.takeWhile isBracketCh = br at h hbr hsplit2
          generalize hg4 : r2.dropWhile isBracketCh = dw2 at h hsplit2
          cases dw2 with
          | nil =>
            dsimp only at h
            simp only [Option.some.injEq, Prod.mk.injEq] at h
            obtain ⟨h1, h2⟩ := h
            subst h1; subst h2
            refine ⟨by simpa using hsplit, by simp, ?_⟩
            intro x hx
            rcases List.mem_cons.1 hx with rfl | hx
            · exact hcdig
            · exact hrun x hx
          | cons e r3 =>
            dsimp only at h
            split at h
            · next he =>
              subst he
              split at h
              · simp only [Option.some.injEq, Prod.mk.injEq] at h
                obtain ⟨h1, h2⟩ := h
                subst h1; subst h2
                refine ⟨by simpa using hsplit, by simp, ?_⟩
                intro x hx
                rcases List.mem_cons.1 hx with rfl | hx
                · exact hcdig
                · exact hrun x hx
              · simp only [Option.some.injEq, Prod.mk.injEq] at h
                obtain ⟨h1, h2⟩ := h
                subst h1; subst h2
                refine ⟨?_, by simp, ?_⟩
                · rw [← hsplit, ← hsplit2]
                  simp
                · intro x hx
                  simp only [List.cons_append, List.append_assoc, List.mem_cons,
                    List.mem_append, List.mem_singleton] at hx
                  rcases hx with rfl | hx
                  · exact hcdig
                  rcases hx with hx | hx
                  · exact hrun x hx
                  rcases hx with rfl | hx
                  · exact ⟨by decide, by decide⟩
                  rcases hx with hx | hx
                  · exact hbr x hx
                  rcases hx with rfl | hx
                  · exact ⟨by decide, by decide⟩
                  · simp at hx
            · simp only [Option.some.injEq, Prod.mk.injEq] at h
              obtain ⟨h1, h2⟩ := h
              subst h1; subst h2
              refine ⟨by simpa using hsplit, by simp, ?_⟩
              intro x hx
              rcases List.mem_cons.1 hx with rfl | hx
              · exact hcdig
              · exact hrun x hx
        · simp only [Option.some.injEq, Prod.mk.injEq] at h
          obtain ⟨h1, h2⟩ := h
          subst h1; subst h2
          refine ⟨by simpa using hsplit, by simp, ?_⟩
          intro x hx
          rcases List.mem_cons.1 hx with rfl | hx
          · exact hcdig
          · exact hrun x hx
    · exact absurd h (by simp)

theorem featPairPat_props {cs p r : List Char}
    (h : featPairPat cs = some (p, r)) :
    p ++ r = cs ∧ p ≠ [] ∧ (∀ x ∈ p, x ≠ '|') ∧
      ∃ a b, p = a ++ '=' :: b ∧ (∀ x ∈ a, x ≠ '=') := by
  rw [featPairPat] at h
  rcases hnm : featNamePat cs with _ | ⟨nm, r1⟩ <;> rw [hnm] at h <;>
    dsimp only at h
  · exact absurd h (by simp)
  · rcases hr1 : r1 with _ | ⟨e, r2⟩ <;> rw [hr1] at h <;> dsimp only at h
    · exact absurd h (by simp)
    · split at h
      · next he =>
        subst he
        rcases hfv : featValuesPat r2 with _ | ⟨vs, r3⟩ <;> rw [hfv] at h <;>
          dsimp only at h
        · exact absurd h (by simp)
        · simp only [Option.some.injEq, Prod.mk.injEq] at h
          obtain ⟨h1, h2⟩ := h
          subst h1; subst h2
          obtain ⟨hap1, -, hch1⟩ := featNamePat_props hnm
          obtain ⟨hap2, -, hch2⟩ := featValuesPat_props hfv
          rw [hr1] at hap1
          refine ⟨?_, by simp, ?_, nm, vs, rfl, fun x hx => (hch1 x hx).2⟩
          · rw [← hap1, ← hap2]
            simp
          · intro x hx
            simp only [List.mem_append, List.mem_cons] at hx
            rcases hx with hx | rfl | hx
            · exact (hch1 x hx).1
            · decide
            · exact (hch2 x hx).1
      · exact absurd h (by simp)

/-- A string has the shape of a matched `_feat_pair`: an `=`-free part
followed by `=` and a tail. -/
def SegHasEq (x : List Char) : Prop :=
  ∃ a b, x = a ++ '=' :: b ∧ ∀ y ∈ a, y ≠ '='

theorem moreFeatPairs_props : ∀ (fuel : Nat) (cs m r : List Char),
    moreFeatPairs fuel cs = (m, r) →
    m ++ r = cs ∧
    ∀ (p : List Char), (∀ x ∈ p, x ≠ '|') → SegHasEq p →
      ∀ x ∈ splitOnChar '|' (p ++ m), SegHasEq x := by
  intro fuel
  induction fuel with
  | zero =>
    intro cs m r h
    simp only [moreFeatPairs, Prod.mk.injEq] at h
    obtain ⟨h1, h2⟩ := h
    subst h1; subst h2
    refine ⟨by simp, ?_⟩
    intro p hbar hseg x hx
    rw [List.append_nil, splitOnChar_sep_free hbar] at hx
    rcases List.mem_singleton.1 hx with rfl
    exact hseg
  | succ fuel ih =>
    intro cs m r h
    cases cs with
    | nil =>
      simp only [moreFeatPairs, Prod.mk.injEq] at h
      obtain ⟨h1, h2⟩ := h
      subst h1; subst h2
      refine ⟨by simp, ?_⟩
      intro p hbar hseg x hx
      rw [List.append_nil, splitOnChar_sep_free hbar] at hx
      rcases List.mem_singleton.1 hx with rfl
      exact hseg
    | cons c cs' =>
      simp only [moreFeatPairs] at h
      split at h
      · next hc =>
        subst hc
        rcases hfp : featPairPat cs' with _ | ⟨p2, r1⟩ <;> rw [hfp] at h <;>
          dsimp only at h
        · simp only [Prod.mk.injEq] at h
          obtain ⟨h1, h2⟩ := h
          subst h1; subst h2
          refine ⟨by simp, ?_⟩
          intro p hbar hseg x hx
          rw [List.append_nil, splitOnChar_sep_free hbar] at hx
          rcases List.mem_singleton.1 hx with rfl
          exact hseg
        · rcases hmp : moreFeatPairs fuel r1 with ⟨m2, r2⟩
          rw [hmp] at h
          simp only [Prod.mk.injEq] at h
          obtain ⟨h1, h2⟩ := h
          subst h1; subst h2
          obtain ⟨hap, -, hbar2, hseg2⟩ := featPairPat_props hfp
          obtain ⟨hap2, hrest⟩ := ih r1 m2 r2 hmp
          constructor
          · simp only [List.cons_append, List.append_assoc, hap2, hap]
          · intro p hbar hseg x hx
            have hre : p ++ '|' :: (p2 ++ m2) = p ++ '|' :: p2 ++ m2 := by simp
            rw [show p ++ '|' :: (p2 ++ m2) = p ++ '|' :: (p2 ++ m2) from rfl,
              splitOnChar_append (p2 ++ m2) p hbar] at hx
            rcases List.mem_cons.1 hx with rfl | hx
            · exact hseg
            · exact hrest p2 hbar2 hseg2 x hx
      · simp only [Prod.mk.injEq] at h
        obtain ⟨h1, h2⟩ := h
        subst h1; subst h2
        refine ⟨by simp, ?_⟩
        intro p hbar hseg x hx
        rw [List.append_nil, splitOnChar_sep_free hbar] at hx
        rcases List.mem_singleton.1 hx with rfl
        exact hseg

theorem t_c5_FEATS_match_segs {cs lex rest : List Char}
    (h : t_c5_FEATS_match cs = some (lex, rest)) :
    lex = ['_'] ∨ ∀ x ∈ splitOnChar '|' lex, SegHasEq x := by
  unfold t_c5_FEATS_match at h
  rcases hfp : featPairPat cs with _ | ⟨p, r⟩ <;> rw [hfp] at h <;> dsimp only at h
  · cases cs with
    | nil => simp at h
    | cons c cs' =>
      dsimp only at h
      split at h
      · next hc =>
        simp only [Option.some.injEq, Prod.mk.injEq] at h
        exact Or.inl (hc ▸ h.1.symm)
      · simp at h
  · rcases hmp : moreFeatPairs r.length r with ⟨m, r'⟩
    rw [hmp] at h
    simp only [Option.some.injEq, Prod.mk.injEq] at h
    obtain ⟨h1, h2⟩ := h
    subst h1; subst h2
    obtain ⟨-, -, hbar, hseg⟩ := featPairPat_props hfp
    obtain ⟨-, hrest⟩ := moreFeatPairs_props _ _ _ _ hmp
    exact Or.inr (hrest p hbar hseg)

theorem feats_decode_of_segs {lex : List Char} (hne : lex ≠ ['_'])
    (hsegs : ∀ x ∈ splitOnChar '|' lex, SegHasEq x) :
    t_c5_FEATS_value lex = some (.vFeats (specFeatsSplit lex)) := by
  rw [t_c5_FEATS_value, if_neg hne]
  have hmap : ∀ x ∈ splitOnChar '|' lex,
      (match splitAtFirst (fun c => c == '=') x with
        | some (nm, rest) => some (nm, splitOnChar ',' rest)
        | none => none)
      = some (x.takeWhile (fun c => !(c == '=')),
          splitOnChar ',' ((x.dropWhile (fun c => !(c == '='))).drop 1)) := by
    intro x hx
    obtain ⟨a, b, rfl, ha⟩ := hsegs x hx
    have hsp : splitAtFirst (fun c => c == '=') (a ++ '=' :: b) = some (a, b) :=
      splitAtFirst_append b (by simp) a (fun y hy => by simpa using ha y hy)
    obtain ⟨hA, hB⟩ := splitAtFirst_parts hsp
    rw [hsp, ← hA, ← hB]
  rw [mapOrNone_eq_map hmap]
  rw [Option.map_some']
  rw [specFeatsSplit]

/-! ### Shape of a successful `step` -/

theorem emit_tok_eq {st : LexerState} {k : TokKind} {v : TokValue}
    {lex : List Char} {next : LexState} {tab lin : Nat} {t : Token}
    {st' : LexerState} (h : emit st k v lex next tab lin = .tok t st') :
    t = ⟨k, v, lex, st.lexpos, st.lineno⟩ ∧
    st' = ⟨st.lexdata, st.lexpos + lex.length, lin, next, tab⟩ := by
  rw [emit] at h
  simp only [StepRes.tok.injEq] at h
  exact ⟨h.1.symm, h.2.symm⟩

theorem emitD_tok_eq {st : LexerState} {k : TokKind} {v? : Option TokValue}
    {lex : List Char} {next : LexState} {tab lin : Nat} {t : Token}
    {st' : LexerState} (h : emitD st k v? lex next tab lin = .tok t st') :
    ∃ v, v? = some v ∧ t = ⟨k, v, lex, st.lexpos, st.lineno⟩ ∧
      st' = ⟨st.lexdata, st.lexpos + lex.length, lin, next, tab⟩ := by
  cases v? with
  | none => rw [emitD] at h; exact absurd h (by simp)
  | some v =>
    rw [emitD] at h
    obtain ⟨h1, h2⟩ := emit_tok_eq h
    exact ⟨v, rfl, h1, h2⟩

theorem step_tok_shape {tags : List (List Char)} {st : LexerState} {t : Token}
    {st' : LexerState} (h : step tags st = .tok t st') :
    st'.lexdata = st.lexdata ∧
    st'.lexpos = st.lexpos + t.lexeme.length ∧
    (stateInv st → stateInv st') ∧
    (t.kind = .NEWLINE → st'.tabCount = 0) ∧
    (t.kind = .TAB → st'.tabCount = st.tabCount + 1 ∧
      cStateOf st'.tabCount = some st'.stateName) ∧
    (st.stateName = .c1 → t.kind = .FORM ∧ t.value = .vStr t.lexeme) ∧
    (st.stateName = .c2 → t.kind = .LEMMA ∧ t.value = .vStr t.lexeme) := by
  obtain ⟨data, pos, line, sn, tab⟩ := st
  unfold step at h
  rcases hds : data.drop pos with _ | ⟨c, tl⟩ <;> rw [hds] at h <;> dsimp only at h
  · exact StepRes.noConfusion h
  · cases sn <;> unfold stepAt at h <;> dsimp only at h
    case INITIAL =>
      rcases hm1 : t_COMMENT_match (c :: tl) with _ | ⟨lex, rest⟩ <;> rw [hm1] at h <;>
        dsimp only at h
      · rcases hm2 : t_RANGE_ID_match (c :: tl) with _ | ⟨lex, rest⟩ <;> rw [hm2] at h <;>
          dsimp only at h
        · rcases hm3 : t_DECIMAL_ID_match (c :: tl) with _ | ⟨lex, rest⟩ <;>
            rw [hm3] at h <;> dsimp only at h
          · rcases hm4 : t_INTEGER_ID_match (c :: tl) with _ | ⟨lex, rest⟩ <;>
              rw [hm4] at h <;> dsimp only at h
            · rcases hm5 : t_NEWLINE_match (c :: tl) with _ | ⟨lex, rest⟩ <;>
                rw [hm5] at h <;> dsimp only at h
              · exact StepRes.noConfusion h
              · obtain ⟨rfl, rfl⟩ := emit_tok_eq h
                refine ⟨rfl, rfl, fun _ => rfl, fun _ => rfl, ?_, ?_, ?_⟩ <;>
                  intro h4 <;> simp at h4
            · obtain ⟨v, hv, rfl, rfl⟩ := emitD_tok_eq h
              refine ⟨rfl, rfl, fun h3 => h3, ?_, ?_, ?_, ?_⟩ <;> intro h4 <;> simp at h4
          · obtain ⟨v, hv, rfl, rfl⟩ := emitD_tok_eq h
            refine ⟨rfl, rfl, fun h3 => h3, ?_, ?_, ?_, ?_⟩ <;> intro h4 <;> simp at h4
        · obtain ⟨v, hv, rfl, rfl⟩ := emitD_tok_eq h
          refine ⟨rfl, rfl, fun h3 => h3, ?_, ?_, ?_, ?_⟩ <;> intro h4 <;> simp at h4
      · obtain ⟨rfl, rfl⟩ := emit_tok_eq h
        refine ⟨rfl, rfl, fun h3 => h3, ?_, ?_, ?_, ?_⟩ <;> intro h4 <;> simp at h4
    case v9 =>
      rcases hm5 : t_NEWLINE_match (c :: tl) with _ | ⟨lex, rest⟩ <;> rw [hm5] at h <;>
        dsimp only at h
      · exact StepRes.noConfusion h
      · obtain ⟨rfl, rfl⟩ := emit_tok_eq h
        refine ⟨rfl, rfl, fun _ => rfl, fun _ => rfl, ?_, ?_, ?_⟩ <;> intro h4 <;>
          simp at h4
    case v0 =>
      rcases htm : t_TAB_match (c :: tl) with _ | ⟨lex, rest⟩ <;> rw [htm] at h <;>
        dsimp only at h
      · exact StepRes.noConfusion h
      · rcases hcs : cStateOf (tab + 1) with _ | nxt <;> rw [hcs] at h <;> dsimp only at h
        · exact StepRes.noConfusion h
        · obtain ⟨rfl, rfl⟩ := emit_tok_eq h
          refine ⟨rfl, rfl, ?_, ?_, ?_, ?_, ?_⟩
          · intro h3
            have htab : tab = 0 := h3
            subst htab
            simp [cStateOf] at hcs
            subst hcs
            rfl
          · intro h4; simp at h4
          · exact fun _ => ⟨rfl, hcs⟩
          · intro h6; simp at h6
          · intro h6; simp at h6
    case v1 =>
      rcases htm : t_TAB_match (c :: tl) with _ | ⟨lex, rest⟩ <;> rw [htm] at h <;>
        dsimp only at h
      · exact StepRes.noConfusion h
      · rcases hcs : cStateOf (tab + 1) with _ | nxt <;> rw [hcs] at h <;> dsimp only at h
        · exact StepRes.noConfusion h
        · obtain ⟨rfl, rfl⟩ := emit_tok_eq h
          refine ⟨rfl, rfl, ?_, ?_, ?_, ?_, ?_⟩
          · intro h3
            have htab : tab = 1 := h3
            subst htab
            simp [cStateOf] at hcs
            subst hcs
            rfl
          · intro h4; simp at h4
          · exact fun _ => ⟨rfl, hcs⟩
          · intro h6; simp at h6
          · intro h6; simp at h6
    case v2 =>
      rcases htm : t_TAB_match (c :: tl) with _ | ⟨lex, rest⟩ <;> rw [htm] at h <;>
        dsimp only at h
      · exact StepRes.noConfusion h
      · rcases hcs : cStateOf (tab + 1) with _ | nxt <;> rw [hcs] at h <;> dsimp only at h
        · exact StepRes.noConfusion h
        · obtain ⟨rfl, rfl⟩ := emit_tok_eq h
          refine ⟨rfl, rfl, ?_, ?_, ?_, ?_, ?_⟩
          · intro h3
            have htab : tab = 2 := h3
            subst htab
            simp [cStateOf] at hcs
            subst hcs
            rfl
          · intro h4; simp at h4
          · exact fun _ => ⟨rfl, hcs⟩
          · intro h6; simp at h6
          · intro h6; simp at h6
    case v3 =>
      rcases htm : t_TAB_match (c :: tl) with _ | ⟨lex, rest⟩ <;> rw [htm] at h <;>
        dsimp only at h
      · exact StepRes.noConfusion h
      · rcases hcs : cStateOf (tab + 1) with _ | nxt <;> rw [hcs] at h <;> dsimp only at h
        · exact StepRes.noConfusion h
        · obtain ⟨rfl, rfl⟩ := emit_tok_eq h
          refine ⟨rfl, rfl, ?_, ?_, ?_, ?_, ?_⟩
          · intro h3
            have htab : tab = 3 := h3
            subst htab
            simp [cStateOf] at hcs
            subst hcs
            rfl
          · intro h4; simp at h4
          · exact fun _ => ⟨rfl, hcs⟩
          · intro h6; simp at h6
          · intro h6; simp at h6
    case v4 =>
      rcases htm : t_TAB_match (c :: tl) with _ | ⟨lex, rest⟩ <;> rw [htm] at h <;>
        dsimp only at h
      · exact StepRes.noConfusion h
      · rcases hcs : cStateOf (tab + 1) with _ | nxt <;> rw [hcs] at h <;> dsimp only at h
        · exact StepRes.noConfusion h
        · obtain ⟨rfl, rfl⟩ := emit_tok_eq h
          refine ⟨rfl, rfl, ?_, ?_, ?_, ?_, ?_⟩
          · intro h3
            have htab : tab = 4 := h3
            subst htab
            simp [cStateOf] at hcs
            subst hcs
            rfl
          · intro h4; simp at h4
          · exact fun _ => ⟨rfl, hcs⟩
          · intro h6; simp at h6
          · intro h6; simp at h6
    case v5 =>
      rcases htm : t_TAB_match (c :: tl) with _ | ⟨lex, rest⟩ <;> rw [htm] at h <;>
        dsimp only at h
      · exact StepRes.noConfusion h
      · rcases hcs : cStateOf (tab + 1) with _ | nxt <;> rw [hcs] at h <;> dsimp only at h
        · exact StepRes.noConfusion h
        · obtain ⟨rfl, rfl⟩ := emit_tok_eq h
          refine ⟨rfl, rfl, ?_, ?_, ?_, ?_, ?_⟩
          · intro h3
            have htab : tab = 5 := h3
            subst htab
            simp [cStateOf] at hcs
            subst hcs
            rfl
          · intro h4; simp at h4
          · exact fun _ => ⟨rfl, hcs⟩
          · intro h6; simp at h6
          · intro h6; simp at h6
    case v6 =>
      rcases htm : t_TAB_match (c :: tl) with _ | ⟨lex, rest⟩ <;> rw [htm] at h <;>
        dsimp only at h
      · exact StepRes.noConfusion h
      · rcases hcs : cStateOf (tab + 1) with _ | nxt <;> rw [hcs] at h <;> dsimp only at h
        · exact StepRes.noConfusion h
        · obtain ⟨rfl, rfl⟩ := emit_tok_eq h
          refine ⟨rfl, rfl, ?_, ?_, ?_, ?_, ?_⟩
          · intro h3
            have htab : tab = 6 := h3
            subst htab
            simp [cStateOf] at hcs
            subst hcs
            rfl
          · intro h4; simp at h4
          · exact fun _ => ⟨rfl, hcs⟩
          · intro h6; simp at h6
          · intro h6; simp at h6
    case v7 =>
      rcases htm : t_TAB_match (c :: tl) with _ | ⟨lex, rest⟩ <;> rw [htm] at h <;>
        dsimp only at h
      · exact StepRes.noConfusion h
      · rcases hcs : cStateOf (tab + 1) with _ | nxt <;> rw [hcs] at h <;> dsimp only at h
        · exact StepRes.noConfusion h
        · obtain ⟨rfl, rfl⟩ := emit_tok_eq h
          refine ⟨rfl, rfl, ?_, ?_, ?_, ?_, ?_⟩
          · intro h3
            have htab : tab = 7 := h3
            subst htab
            simp [cStateOf] at hcs
            subst hcs
            rfl
          · intro h4; simp at h4
          · exact fun _ => ⟨rfl, hcs⟩
          · intro h6; simp at h6
          · intro h6; simp at h6
    case v8 =>
      rcases htm : t_TAB_match (c :: tl) with _ | ⟨lex, rest⟩ <;> rw [htm] at h <;>
        dsimp only at h
      · exact StepRes.noConfusion h
      · rcases hcs : cStateOf (tab + 1) with _ | nxt <;> rw [hcs] at h <;> dsimp only at h
        · exact StepRes.noConfusion h
        · obtain ⟨rfl, rfl⟩ := emit_tok_eq h
          refine ⟨rfl, rfl, ?_, ?_, ?_, ?_, ?_⟩
          · intro h3
            have htab : tab = 8 := h3
            subst htab
            simp [cStateOf] at hcs
            subst hcs
            rfl
          · intro h4; simp at h4
          · exact fun _ => ⟨rfl, hcs⟩
          · intro h6; simp at h6
          · intro h6; simp at h6
    case c1 =>
      rcases hm : t_c1_FORM_match (c :: tl) with _ | ⟨lex, rest⟩ <;> rw [hm] at h <;>
        dsimp only at h
      · exact StepRes.noConfusion h
      · obtain ⟨rfl, rfl⟩ := emit_tok_eq h
        refine ⟨rfl, rfl, ?_, ?_, ?_, ?_, ?_⟩
        · exact fun h3 => h3
        · intro h4; simp at h4
        · intro h4; simp at h4
        · exact fun _ => ⟨rfl, rfl⟩
        · intro h6; simp at h6
    case c2 =>
      rcases hm : t_c2_LEMMA_match (c :: tl) with _ | ⟨lex, rest⟩ <;> rw [hm] at h <;>
        dsimp only at h
      · exact StepRes.noConfusion h
      · obtain ⟨rfl, rfl⟩ := emit_tok_eq h
        refine ⟨rfl, rfl, ?_, ?_, ?_, ?_, ?_⟩
        · exact fun h3 => h3
        · intro h4; simp at h4
        · intro h4; simp at h4
        · intro h6; simp at h6
        · exact fun _ => ⟨rfl, rfl⟩
    case c3 =>
      rcases hm : t_c3_UPOS_match tags (c :: tl) with _ | ⟨lex, rest⟩ <;> rw [hm] at h <;>
        dsimp only at h
      · exact StepRes.noConfusion h
      · obtain ⟨rfl, rfl⟩ := emit_tok_eq h
        refine ⟨rfl, rfl, ?_, ?_, ?_, ?_, ?_⟩
        · exact fun h3 => h3
        · intro h4; simp at h4
        · intro h4; simp at h4
        · intro h6; simp at h6
        · intro h6; simp at h6
    case c4 =>
      rcases hm : t_c4_XPOS_match (c :: tl) with _ | ⟨lex, rest⟩ <;> rw [hm] at h <;>
        dsimp only at h
      · exact StepRes.noConfusion h
      · obtain ⟨rfl, rfl⟩ := emit_tok_eq h
        refine ⟨rfl, rfl, ?_, ?_, ?_, ?_, ?_⟩
        · exact fun h3 => h3
        · intro h4; simp at h4
        · intro h4; simp at h4
        · intro h6; simp at h6
        · intro h6; simp at h6
    case c5 =>
      rcases hm : t_c5_FEATS_match (c :: tl) with _ | ⟨lex, rest⟩ <;> rw [hm] at h <;>
        dsimp only at h
      · exact StepRes.noConfusion h
      · obtain ⟨v, hv, rfl, rfl⟩ := emitD_tok_eq h
        refine ⟨rfl, rfl, ?_, ?_, ?_, ?_, ?_⟩
        · exact fun h3 => h3
        · intro h4; simp at h4
        · intro h4; simp at h4
        · intro h6; simp at h6
        · intro h6; simp at h6
    case c6 =>
      rcases hm : t_c6_HEAD_match (c :: tl) with _ | ⟨lex, rest⟩ <;> rw [hm] at h <;>
        dsimp only at h
      · exact StepRes.noConfusion h
      · obtain ⟨v, hv, rfl, rfl⟩ := emitD_tok_eq h
        refine ⟨rfl, rfl, ?_, ?_, ?_, ?_, ?_⟩
        · exact fun h3 => h3
        · intro h4; simp at h4
        · intro h4; simp at h4
        · intro h6; simp at h6
        · intro h6; simp at h6
    case c7 =>
      rcases hm : t_c7_DEPREL_match (c :: tl) with _ | ⟨lex, rest⟩ <;> rw [hm] at h <;>
        dsimp only at h
      · exact StepRes.noConfusion h
      · obtain ⟨rfl, rfl⟩ := emit_tok_eq h
        refine ⟨rfl, rfl, ?_, ?_, ?_, ?_, ?_⟩
        · exact fun h3 => h3
        · intro h4; simp at h4
        · intro h4; simp at h4
        · intro h6; simp at h6
        · intro h6; simp at h6
    case c8 =>
      rcases hm : t_c8_DEPS_match (c :: tl) with _ | ⟨lex, rest⟩ <;> rw [hm] at h <;>
        dsimp only at h
      · exact StepRes.noConfusion h
      · obtain ⟨v, hv, rfl, rfl⟩ := emitD_tok_eq h
        refine ⟨rfl, rfl, ?_, ?_, ?_, ?_, ?_⟩
        · exact fun h3 => h3
        · intro h4; simp at h4
        · intro h4; simp at h4
        · intro h6; simp at h6
        · intro h6; simp at h6
    case c9 =>
      rcases hm : t_c9_MISC_match (c :: tl) with _ | ⟨lex, rest⟩ <;> rw [hm] at h <;>
        dsimp only at h
      · exact StepRes.noConfusion h
      · obtain ⟨rfl, rfl⟩ := emit_tok_eq h
        refine ⟨rfl, rfl, ?_, ?_, ?_, ?_, ?_⟩
        · exact fun h3 => h3
        · intro h4; simp at h4
        · intro h4; simp at h4
        · intro h6; simp at h6
        · intro h6; simp at h6

theorem cStateOf_bounds {n : Nat} {s : LexState} (h : cStateOf n = some s) :
    1 ≤ n ∧ n ≤ 9 := by
  unfold cStateOf at h
  split_ifs at h <;> first | omega | exact Option.noConfusion h

theorem step_v9_tab {tags : List (List Char)} {st : LexerState} {rest : List Char}
    (h9 : st.stateName = .v9) (hds : st.lexdata.drop st.lexpos = '\t' :: rest) :
    step tags st = .err (.illegalCharacter st.lineno
      (find_column st.lexdata st.lexpos) '\t') := by
  obtain ⟨data, pos, line, sn, tab⟩ := st
  dsimp only at h9 hds ⊢
  subst h9
  unfold step
  rw [hds]
  dsimp only
  unfold stepAt
  dsimp only
  have hnl : t_NEWLINE_match ('\t' :: rest) = none := by simp [t_NEWLINE_match]
  rw [hnl]
  rfl

theorem t_RANGE_ID_match_props {cs lex rest : List Char}
    (h : t_RANGE_ID_match cs = some (lex, rest)) :
    ∃ d1 d2, lex = d1 ++ '-' :: d2 ∧
      (∀ x ∈ d1, isDigitCh x = true) ∧ (∀ x ∈ d2, isDigitCh x = true) ∧
      (∃ c r', d1 = c :: r' ∧ isNonzeroCh c = true) ∧
      (∃ c r', d2 = c :: r' ∧ isNonzeroCh c = true) := by
  unfold t_RANGE_ID_match at h
  rcases h1 : nonzeroDigitsPat cs with _ | ⟨d1, r1⟩ <;> rw [h1] at h <;> dsimp only at h
  · exact Option.noConfusion h
  · cases r1 with
    | nil => exact Option.noConfusion h
    | cons e r2 =>
      dsimp only at h
      split at h
      · next he =>
        subst he
        rcases h2 : nonzeroDigitsPat r2 with _ | ⟨d2, r3⟩ <;> rw [h2] at h <;>
          dsimp only at h
        · exact Option.noConfusion h
        · simp only [Option.some.injEq, Prod.mk.injEq] at h
          obtain ⟨hl, hr⟩ := h
          subst hl; subst hr
          obtain ⟨-, hd1, hc1⟩ := nonzeroDigitsPat_props h1
          obtain ⟨-, hd2, hc2⟩ := nonzeroDigitsPat_props h2
          exact ⟨d1, d2, rfl, hd1, hd2, hc1, hc2⟩
      · exact Option.noConfusion h

theorem t_DECIMAL_ID_match_props {cs lex rest : List Char}
    (h : t_DECIMAL_ID_match cs = some (lex, rest)) :
    ∃ mj d2, lex = mj ++ '.' :: d2 ∧ mj ≠ [] ∧
      (∀ x ∈ mj, isDigitCh x = true) ∧ (∀ x ∈ d2, isDigitCh x = true) ∧
      (∃ c r', d2 = c :: r' ∧ isNonzeroCh c = true) := by
  unfold t_DECIMAL_ID_match at h
  rcases h1 : depHeadPat cs with _ | ⟨mj, r1⟩ <;> rw [h1] at h <;> dsimp only at h
  · exact Option.noConfusion h
  · cases r1 with
    | nil => exact Option.noConfusion h
    | cons e r2 =>
      dsimp only at h
      split at h
      · next he =>
        subst he
        rcases h2 : nonzeroDigitsPat r2 with _ | ⟨d2, r3⟩ <;> rw [h2] at h <;>
          dsimp only at h
        · exact Option.noConfusion h
        · simp only [Option.some.injEq, Prod.mk.injEq] at h
          obtain ⟨hl, hr⟩ := h
          subst hl; subst hr
          obtain ⟨-, hne, hd1, -⟩ := depHeadPat_props h1
          obtain ⟨-, hd2, hc2⟩ := nonzeroDigitsPat_props h2
          exact ⟨mj, d2, rfl, hne, hd1, hd2, hc2⟩
      · exact Option.noConfusion h

theorem t_c6_HEAD_match_no_leading_zero {cs lex rest : List Char}
    (h : t_c6_HEAD_match cs = some (lex, rest)) (h0 : lex.head? = some '0') :
    lex = ['0'] := by
  unfold t_c6_HEAD_match at h
  rcases h1 : depHeadPat cs with _ | ⟨p, r1⟩ <;> rw [h1] at h <;> dsimp only at h
  · cases cs with
    | nil => exact Option.noConfusion h
    | cons c r =>
      dsimp only at h
      split at h
      · next hc =>
        subst hc
        simp only [Option.some.injEq, Prod.mk.injEq] at h
        obtain ⟨hl, hr⟩ := h
        subst hl
        simp at h0
      · exact Option.noConfusion h
  · simp only [Option.some.injEq, Prod.mk.injEq] at h
    obtain ⟨hl, hr⟩ := h
    subst hl; subst hr
    obtain ⟨-, -, -, hz⟩ := depHeadPat_props h1
    cases p with
    | nil => simp at h0
    | cons c r' =>
      simp only [List.head?_cons, Option.some.injEq] at h0
      subst h0
      rcases hz '0' r' rfl with rfl | hnz
      · rfl
      · exact absurd hnz (by decide)

/-! ### The claims -/

/-- Claim C1: for every input, the lexer's tab counter resets to 0 at each
NEWLINE token; within a row, consuming the i-th TAB (1 ≤ i ≤ 9)
transitions the lexer into state `c_i` (the tab counter, which equals the
number of tabs consumed since the last newline in every reachable state,
becomes `i` and the new state is `c_i`); and a 10th tab in one row — a tab
at the cursor in state `v9` — raises IllegalCharacter.  The first two
conjuncts establish the counter/state correspondence at initialisation and
across every step. -/
theorem claim1_tab_state_machine :
    (∀ input : List Char, stateInv (initLexer input)) ∧
    (∀ (tags : List (List Char)) (st : LexerState) (t : Token) (st' : LexerState),
      stateInv st → step tags st = .tok t st' → stateInv st') ∧
    (∀ (tags : List (List Char)) (st : LexerState) (t : Token) (st' : LexerState),
      step tags st = .tok t st' → t.kind = .NEWLINE → st'.tabCount = 0) ∧
    (∀ (tags : List (List Char)) (st : LexerState) (t : Token) (st' : LexerState),
      step tags st = .tok t st' → t.kind = .TAB →
        st'.tabCount = st.tabCount + 1 ∧ 1 ≤ st'.tabCount ∧ st'.tabCount ≤ 9 ∧
        cStateOf st'.tabCount = some st'.stateName) ∧
    (∀ (tags : List (List Char)) (st : LexerState) (rest : List Char),
      st.stateName = .v9 → st.lexdata.drop st.lexpos = '\t' :: rest →
      step tags st = .err (.illegalCharacter st.lineno
        (find_column st.lexdata st.lexpos) '\t')) := by
  refine ⟨?_, ?_, ?_, ?_, ?_⟩
  · intro input; rfl
  · intro tags st t st' hinv h
    exact (step_tok_shape h).2.2.1 hinv
  · intro tags st t st' h hk
    exact (step_tok_shape h).2.2.2.1 hk
  · intro tags st t st' h hk
    obtain ⟨h1, h2⟩ := (step_tok_shape h).2.2.2.2.1 hk
    obtain ⟨b1, b2⟩ := cStateOf_bounds h2
    exact ⟨h1, by omega, b2, h2⟩
  · intro tags st rest h9 hds
    exact step_v9_tab h9 hds

/-- Witness for C1: in state `v9` with 9 tabs consumed, a tab at the
cursor raises IllegalCharacter. -/
theorem claim1_tab_state_machine_witness :
    step [] ⟨['\t'], 0, 1, .v9, 9⟩ = .err (.illegalCharacter 1 1 '\t') := by
  exact claim1_tab_state_machine.2.2.2.2 [] ⟨['\t'], 0, 1, .v9, 9⟩ [] rfl rfl

/-- Claim C2, counterexample: the end-to-end input produces 41 tokens, not
the 2 · 19 + 1 = 39 the claim's token count implies (each full row yields
20 tokens — 10 fields, 9 tabs and its terminating NEWLINE). -/
theorem claim2_token_count_counterexample :
    Except.map (fun l => List.length l)
      (conlluLex specTagRegistry
        ("1\tThe\tthe\tDET\t_\t_\t2\tdet\t_\t_\n2\tdog\tdog\tNOUN\t_\t_\t0\troot\t_\t_\n\n".data)) =
      .ok 41 ∧ (41 : Nat) ≠ 2 * 19 + 1 :=
  ⟨by rfl, by decide⟩

/-- Claim C2 as amended: the end-to-end input yields two full rows of 20
tokens each (ID, TAB, FORM, TAB, LEMMA, …, MISC and the row's NEWLINE)
followed by one blank-line NEWLINE, with HEAD decoded to the integers 2
and 0, DEPREL decoded to the strings "det" and "root", and
DEPS/FEATS/MISC (and XPOS) decoded to absence in both rows. -/
theorem claim2_end_to_end :
    Except.map (fun l => List.map Token.kind l)
      (conlluLex specTagRegistry
        ("1\tThe\tthe\tDET\t_\t_\t2\tdet\t_\t_\n2\tdog\tdog\tNOUN\t_\t_\t0\troot\t_\t_\n\n".data)) =
      .ok [.INTEGER_ID, .TAB, .FORM, .TAB, .LEMMA, .TAB, .UPOS, .TAB, .XPOS, .TAB,
        .FEATS, .TAB, .HEAD, .TAB, .DEPREL, .TAB, .DEPS, .TAB, .MISC, .NEWLINE,
        .INTEGER_ID, .TAB, .FORM, .TAB, .LEMMA, .TAB, .UPOS, .TAB, .XPOS, .TAB,
        .FEATS, .TAB, .HEAD, .TAB, .DEPREL, .TAB, .DEPS, .TAB, .MISC, .NEWLINE,
        .NEWLINE] ∧
    Except.map (fun l => List.map Token.value l)
      (conlluLex specTagRegistry
        ("1\tThe\tthe\tDET\t_\t_\t2\tdet\t_\t_\n2\tdog\tdog\tNOUN\t_\t_\t0\troot\t_\t_\n\n".data)) =
      .ok [.vInt 1, .vStr ['\t'], .vStr "The".data, .vStr ['\t'], .vStr "the".data,
        .vStr ['\t'], .vStr "DET".data, .vStr ['\t'], .vNone, .vStr ['\t'], .vNone,
        .vStr ['\t'], .vInt 2, .vStr ['\t'], .vStr "det".data, .vStr ['\t'], .vNone,
        .vStr ['\t'], .vNone, .vStr ['\n'],
        .vInt 2, .vStr ['\t'], .vStr "dog".data, .vStr ['\t'], .vStr "dog".data,
        .vStr ['\t'], .vStr "NOUN".data, .vStr ['\t'], .vNone, .vStr ['\t'], .vNone,
        .vStr ['\t'], .vInt 0, .vStr ['\t'], .vStr "root".data, .vStr ['\t'], .vNone,
        .vStr ['\t'], .vNone, .vStr ['\n'],
        .vStr ['\n']] ∧
    Except.map (fun l => List.length l)
      (conlluLex specTagRegistry
        ("1\tThe\tthe\tDET\t_\t_\t2\tdet\t_\t_\n2\tdog\tdog\tNOUN\t_\t_\t0\troot\t_\t_\n\n".data)) =
      .ok 41 :=
  ⟨by rfl, by rfl, by rfl⟩

/-- Claim C3: the DEPS decoder does split each `|`-segment at its first
`:` only (so `"4:nsubj|6:conj:and"` decodes to the claimed list, and the
deprel part may contain `:`), but the claim's universal statement is
falsified by the code: the greedy `_dep_deprel` pattern `[^\n\t ]+` also
consumes `|`, so `"4:a|b"` is matched in column 8 as one lexeme other than
`"_"`, and its decoder raises ValueError (modelled by `none`) instead of
producing a decoded value, because the segment `"b"` has no colon. -/
theorem claim3_deps_decode_bug :
    t_c8_DEPS_match ("4:a|b".data) = some ("4:a|b".data, []) ∧
    t_c8_DEPS_value ("4:a|b".data) = none ∧
    t_c8_DEPS_value ("4:nsubj|6:conj:and".data) =
      some (.vDeps [(4, "nsubj".data), (6, "conj:and".data)]) ∧
    t_c8_DEPS_value ['_'] = some .vNone :=
  ⟨by rfl, by rfl, by rfl, by rfl⟩

/-- Claim C4: the lexeme `_` decodes to absence in the UPOS, XPOS, HEAD,
DEPREL, DEPS, MISC and FEATS columns, while the FORM and LEMMA rules keep
every lexeme (hence also a literal `_`) verbatim as the token's value. -/
theorem claim4_null_decoding :
    t_c3_UPOS_value ['_'] = .vNone ∧
    t_c4_XPOS_value ['_'] = .vNone ∧
    t_c6_HEAD_value ['_'] = some .vNone ∧
    t_c7_DEPREL_value ['_'] = .vNone ∧
    t_c8_DEPS_value ['_'] = some .vNone ∧
    t_c9_MISC_value ['_'] = .vNone ∧
    t_c5_FEATS_value ['_'] = some .vNone ∧
    (∀ (tags : List (List Char)) (st : LexerState) (t : Token) (st' : LexerState),
      st.stateName = .c1 → step tags st = .tok t st' →
        t.kind = .FORM ∧ t.value = .vStr t.lexeme) ∧
    (∀ (tags : List (List Char)) (st : LexerState) (t : Token) (st' : LexerState),
      st.stateName = .c2 → step tags st = .tok t st' →
        t.kind = .LEMMA ∧ t.value = .vStr t.lexeme) := by
  refine ⟨by rfl, by rfl, by rfl, by rfl, by rfl, by rfl, by rfl, ?_, ?_⟩
  · intro tags st t st' h1 h
    exact (step_tok_shape h).2.2.2.2.2.1 h1
  · intro tags st t st' h1 h
    exact (step_tok_shape h).2.2.2.2.2.2 h1

/-- Witness for C4: in state `c1` a FORM lexeme `_` is kept verbatim. -/
theorem claim4_null_decoding_witness :
    step [] ⟨['_'], 0, 1, .c1, 1⟩ =
      .tok ⟨.FORM, .vStr ['_'], ['_'], 0, 1⟩ ⟨['_'], 1, 1, .v1, 1⟩ ∧
    TokKind.FORM = .FORM ∧ TokValue.vStr ['_'] = .vStr ['_'] := by
  refine ⟨by rfl, ?_⟩
  exact claim4_null_decoding.2.2.2.2.2.2.2.1 [] ⟨['_'], 0, 1, .c1, 1⟩
    ⟨.FORM, .vStr ['_'], ['_'], 0, 1⟩ ⟨['_'], 1, 1, .v1, 1⟩ rfl (by rfl)

/-- Claim C5: in the INITIAL state, `"7"` yields INTEGER_ID with value 7,
`"4-5"` yields RANGE_ID with value (4,5), `"8.1"` yields DECIMAL_ID with
value (8,1); the last two conjuncts show that for `"4-5"` and `"8.1"` the
INTEGER_ID pattern also matches (a shorter prefix), yet the longest/most
specific pattern wins because RANGE_ID and DECIMAL_ID are tried first. -/
theorem claim5_id_decoding :
    step [] (initLexer ("7\tx".data)) =
      .tok ⟨.INTEGER_ID, .vInt 7, ['7'], 0, 1⟩ ⟨"7\tx".data, 1, 1, .v0, 0⟩ ∧
    step [] (initLexer ("4-5\tx".data)) =
      .tok ⟨.RANGE_ID, .vIntPair 4 5, "4-5".data, 0, 1⟩ ⟨"4-5\tx".data, 3, 1, .v0, 0⟩ ∧
    step [] (initLexer ("8.1\tx".data)) =
      .tok ⟨.DECIMAL_ID, .vIntPair 8 1, "8.1".data, 0, 1⟩ ⟨"8.1\tx".data, 3, 1, .v0, 0⟩ ∧
    t_INTEGER_ID_match ("4-5\tx".data) = some (['4'], "-5\tx".data) ∧
    t_INTEGER_ID_match ("8.1\tx".data) = some (['8'], ".1\tx".data) :=
  ⟨by rfl, by rfl, by rfl, by rfl, by rfl⟩

/-- Claim C6: every FEATS lexeme matched in column 5 other than `_`
decodes to the list obtained by splitting the lexeme on `|` and splitting
each segment at its first `=` into a name and a comma-split list of
values (`specFeatsSplit`, written from the spec's words); in particular
`"Case=Nom|Number=Sing"` decodes to the claimed list and `_` decodes to
absence. -/
theorem claim6_feats_decoding :
    (∀ cs lex rest : List Char, t_c5_FEATS_match cs = some (lex, rest) →
      lex ≠ ['_'] → t_c5_FEATS_value lex = some (.vFeats (specFeatsSplit lex))) ∧
    t_c5_FEATS_value ("Case=Nom|Number=Sing".data) =
      some (.vFeats [("Case".data, ["Nom".data]), ("Number".data, ["Sing".data])]) ∧
    t_c5_FEATS_value ['_'] = some .vNone := by
  refine ⟨?_, by rfl, by rfl⟩
  intro cs lex rest hm hne
  rcases t_c5_FEATS_match_segs hm with h | h
  · exact absurd h hne
  · exact feats_decode_of_segs hne h

/-- Witness for C6: the matched lexeme `"Case=Nom"` decodes to the
spec-side split. -/
theorem claim6_feats_decoding_witness :
    t_c5_FEATS_value ("Case=Nom".data) =
      some (.vFeats (specFeatsSplit ("Case=Nom".data))) := by
  exact claim6_feats_decoding.1 ("Case=Nom".data) ("Case=Nom".data) [] (by rfl)
    (by decide)

/-- Claim C7: the claim that IllegalCharacter is the only runtime error is
falsified by the code: on the row whose DEPS field is `"4:a|b"` the DEPS
rule matches the whole field as one lexeme, and its decoder raises
ValueError (`LexError.decodeFailure .DEPS`, line 1) rather than
IllegalCharacter — the `([|]pair)*` part of the `_deps` pattern is dead
because `_dep_deprel` already consumes `|`, so matcher and decoder
disagree about `|`. -/
theorem claim7_deps_valueerror :
    conlluLex [] ("1\tThe\tthe\t_\t_\t_\t2\tdet\t4:a|b\t_\n".data) =
      .error (.decodeFailure .DEPS 1) := by rfl

/-- Claim C8: with the spec-modelled registry, an UPOS field `"XX123"`
(not in the registry, not `_`) raises IllegalCharacter whose payload is
the 1-based line 1 and 1-based column 11 — computed by `find_column` from
the preceding newline — pointing at the first character of `"XX123"`,
which sits at buffer offset 10. -/
theorem claim8_upos_illegal :
    conlluLex specTagRegistry ("1\tThe\tthe\tXX123\t_\t_\t2\tdet\t_\t_\n".data) =
      .error (.illegalCharacter 1 11 'X') ∧
    ("1\tThe\tthe\tXX123\t_\t_\t2\tdet\t_\t_\n".data).drop 10 =
      "XX123\t_\t_\t2\tdet\t_\t_\n".data ∧
    find_column ("1\tThe\tthe\tXX123\t_\t_\t2\tdet\t_\t_\n".data) 10 = 11 :=
  ⟨by rfl, by rfl, by rfl⟩

/-- Claim C9: XPOS, DEPREL and MISC lexemes never contain a space; a space
inside one of those fields ends the token before it and the following step
raises IllegalCharacter at the space; FORM and LEMMA accept any nonempty
run of characters other than tab and newline verbatim, spaces included
(`isFormCh ' ' = true`). -/
theorem claim9_space_handling :
    (∀ cs lex rest : List Char, t_c4_XPOS_match cs = some (lex, rest) → ' ' ∉ lex) ∧
    (∀ cs lex rest : List Char, t_c7_DEPREL_match cs = some (lex, rest) → ' ' ∉ lex) ∧
    (∀ cs lex rest : List Char, t_c9_MISC_match cs = some (lex, rest) → ' ' ∉ lex) ∧
    (∀ (tags : List (List Char)) (st : LexerState) (pre rest : List Char),
      (st.stateName = .c4 ∨ st.stateName = .c7 ∨ st.stateName = .c9) →
      st.lexdata.drop st.lexpos = pre ++ ' ' :: rest → pre ≠ [] →
      (∀ c ∈ pre, isXposCh c = true) →
      ∃ t st', step tags st = .tok t st' ∧ t.lexeme = pre ∧
        st'.lexpos = st.lexpos + pre.length ∧
        step tags st' = .err (.illegalCharacter st.lineno
          (find_column st.lexdata (st.lexpos + pre.length)) ' ')) ∧
    (∀ pre rest : List Char, pre ≠ [] → (∀ c ∈ pre, isFormCh c = true) →
      (rest = [] ∨ ∃ c r', rest = c :: r' ∧ isFormCh c = false) →
      t_c1_FORM_match (pre ++ rest) = some (pre, rest) ∧
      t_c2_LEMMA_match (pre ++ rest) = some (pre, rest)) ∧
    isFormCh ' ' = true := by
  have hspace : ∀ cs lex rest : List Char,
      runPat isXposCh cs = some (lex, rest) → ' ' ∉ lex := by
    intro cs lex rest h hmem
    have := runPat_mem h ' ' hmem
    exact absurd this (by decide)
  refine ⟨fun cs lex rest h => hspace cs lex rest h,
    fun cs lex rest h => hspace cs lex rest h,
    fun cs lex rest h => hspace cs lex rest h, ?_, ?_, by rfl⟩
  · intro tags st pre rest hsn hds hne hpre
    obtain ⟨data, pos, line, sn, tab⟩ := st
    dsimp only at hsn hds ⊢
    have hrem : ∀ (c : Char) (r' : List Char),
        (' ' :: rest) = c :: r' → isXposCh c = false := by
      intro c r' he
      rw [List.cons.injEq] at he
      rw [← he.1]
      decide
    have htw := takeWhile_append_sound (p := isXposCh) (' ' :: rest) hrem pre hpre
    have hmatch : runPat isXposCh (pre ++ ' ' :: rest) = some (pre, ' ' :: rest) := by
      rw [runPat, htw.1, htw.2, if_neg]
      simp only [List.isEmpty_iff]
      exact hne
    cases pre with
    | nil => exact absurd rfl hne
    | cons p0 pre' =>
    have hds' : data.drop pos = p0 :: (pre' ++ ' ' :: rest) := by simpa using hds
    have hds2 : data.drop (pos + (p0 :: pre').length) = ' ' :: rest := by
      rw [← List.drop_drop, hds']
      have hform : p0 :: (pre' ++ ' ' :: rest) = (p0 :: pre') ++ (' ' :: rest) := by simp
      rw [hform, List.drop_left]
    have hmatch' : runPat isXposCh (p0 :: (pre' ++ ' ' :: rest)) =
        some (p0 :: pre', ' ' :: rest) := by
      simpa [List.cons_append] using hmatch
    rcases hsn with h4 | h7 | h9
    · subst h4
      refine ⟨⟨.XPOS, t_c4_XPOS_value (p0 :: pre'), p0 :: pre', pos, line⟩,
        ⟨data, pos + (p0 :: pre').length, line, .v4, tab⟩, ?_, rfl, rfl, ?_⟩
      · unfold step
        rw [hds']
        dsimp only
        unfold stepAt
        dsimp only
        rw [show t_c4_XPOS_match (p0 :: (pre' ++ ' ' :: rest)) =
          some (p0 :: pre', ' ' :: rest) from hmatch']
        rfl
      · unfold step
        rw [hds2]
        dsimp only
        unfold stepAt
        dsimp only
        rw [show t_TAB_match (' ' :: rest) = none from by simp [t_TAB_match]]
        rfl
    · subst h7
      refine ⟨⟨.DEPREL, t_c7_DEPREL_value (p0 :: pre'), p0 :: pre', pos, line⟩,
        ⟨data, pos + (p0 :: pre').length, line, .v7, tab⟩, ?_, rfl, rfl, ?_⟩
      · unfold step
        rw [hds']
        dsimp only
        unfold stepAt
        dsimp only
        rw [show t_c7_DEPREL_match (p0 :: (pre' ++ ' ' :: rest)) =
          some (p0 :: pre', ' ' :: rest) from hmatch']
        rfl
      · unfold step
        rw [hds2]
        dsimp only
        unfold stepAt
        dsimp only
        rw [show t_TAB_match (' ' :: rest) = none from by simp [t_TAB_match]]
        rfl
    · subst h9
      refine ⟨⟨.MISC, t_c9_MISC_value (p0 :: pre'), p0 :: pre', pos, line⟩,
        ⟨data, pos + (p0 :: pre').length, line, .v9, tab⟩, ?_, rfl, rfl, ?_⟩
      · unfold step
        rw [hds']
        dsimp only
        unfold stepAt
        dsimp only
        rw [show t_c9_MISC_match (p0 :: (pre' ++ ' ' :: rest)) =
          some (p0 :: pre', ' ' :: rest) from hmatch']
        rfl
      · unfold step
        rw [hds2]
        dsimp only
        unfold stepAt
        dsimp only
        rw [show t_NEWLINE_match (' ' :: rest) = none from by simp [t_NEWLINE_match]]
        rfl
  · intro pre rest hne hpre hrest
    have hrem : ∀ (c : Char) (r' : List Char), rest = c :: r' → isFormCh c = false := by
      intro c r' he
      rcases hrest with rfl | ⟨c', r'', rfl, hc'⟩
      · exact absurd he (by simp)
      · rw [List.cons.injEq] at he
        rw [← he.1]
        exact hc'
    have htw := takeWhile_append_sound (p := isFormCh) rest hrem pre hpre
    have hmatch : runPat isFormCh (pre ++ rest) = some (pre, rest) := by
      rw [runPat, htw.1, htw.2, if_neg]
      simp only [List.isEmpty_iff]
      exact hne
    exact ⟨hmatch, hmatch⟩

/-- Witness for C9: `"a b"` (with a space) followed by a tab is one FORM
lexeme. -/
theorem claim9_space_handling_witness :
    t_c1_FORM_match ("a b".data ++ ['\t']) = some ("a b".data, ['\t']) := by
  exact (claim9_space_handling.2.2.2.2.1 ("a b".data) ['\t'] (by decide) (by decide)
    (Or.inr ⟨'\t', [], rfl, by decide⟩)).1

/-- Claim C10: an INTEGER_ID value is at least 1 (and the bare digit `"0"`
matches no ID rule of INITIAL, raising IllegalCharacter); both RANGE_ID
components are at least 1; a DECIMAL_ID minor component is at least 1
while the major may be 0 (witness `"0.1"`); and a present HEAD value may
be 0 (witness lexeme `"0"`) but a HEAD lexeme never has a leading zero:
if it starts with `'0'` it is exactly `"0"`. -/
theorem claim10_numeric_invariants :
    (∀ (cs lex rest : List Char) (v : Nat),
      t_INTEGER_ID_match cs = some (lex, rest) →
      t_INTEGER_ID_value lex = some (.vInt v) → 1 ≤ v) ∧
    (∀ (cs lex rest : List Char) (a b : Nat),
      t_RANGE_ID_match cs = some (lex, rest) →
      t_RANGE_ID_value lex = some (.vIntPair a b) → 1 ≤ a ∧ 1 ≤ b) ∧
    (∀ (cs lex rest : List Char) (a b : Nat),
      t_DECIMAL_ID_match cs = some (lex, rest) →
      t_DECIMAL_ID_value lex = some (.vIntPair a b) → 1 ≤ b) ∧
    (t_DECIMAL_ID_match ("0.1".data) = some ("0.1".data, []) ∧
      t_DECIMAL_ID_value ("0.1".data) = some (.vIntPair 0 1)) ∧
    (t_c6_HEAD_match ['0'] = some (['0'], []) ∧
      t_c6_HEAD_value ['0'] = some (.vInt 0)) ∧
    (∀ cs lex rest : List Char,
      t_c6_HEAD_match cs = some (lex, rest) → lex.head? = some '0' → lex = ['0']) ∧
    step [] (initLexer ("0\tx".data)) = .err (.illegalCharacter 1 1 '0') := by
  refine ⟨?_, ?_, ?_, ⟨by rfl, by rfl⟩, ⟨by rfl, by rfl⟩,
    fun cs lex rest h h0 => t_c6_HEAD_match_no_leading_zero h h0, by rfl⟩
  · intro cs lex rest v hm hv
    obtain ⟨-, -, c, r', rfl, hc⟩ := nonzeroDigitsPat_props hm
    rw [t_INTEGER_ID_value] at hv
    rcases hp : parseNat (c :: r') with _ | n <;> rw [hp] at hv
    · exact Option.noConfusion hv
    · simp only [Option.map_some', Option.some.injEq, TokValue.vInt.injEq] at hv
      subst hv
      rw [parseNat_some_eq hp]
      exact parseNatD_pos r' hc
  · intro cs lex rest a b hm hv
    obtain ⟨d1, d2, rfl, hd1, hd2, ⟨c1, r1, rfl, hc1⟩, ⟨c2, r2, rfl, hc2⟩⟩ :=
      t_RANGE_ID_match_props hm
    rw [t_RANGE_ID_value] at hv
    rw [splitOnChar_append _ _ (fun x hx => (isDigitCh_ne (hd1 x hx)).1),
      splitOnChar_sep_free (fun x hx => (isDigitCh_ne (hd2 x hx)).1)] at hv
    dsimp only at hv
    rcases hp1 : parseNat (c1 :: r1) with _ | x <;> rw [hp1] at hv
    · exact Option.noConfusion hv
    · rcases hp2 : parseNat (c2 :: r2) with _ | y <;> rw [hp2] at hv
      · exact Option.noConfusion hv
      · simp only [Option.some.injEq, TokValue.vIntPair.injEq] at hv
        obtain ⟨rfl, rfl⟩ := hv
        rw [parseNat_some_eq hp1, parseNat_some_eq hp2]
        exact ⟨parseNatD_pos r1 hc1, parseNatD_pos r2 hc2⟩
  · intro cs lex rest a b hm hv
    obtain ⟨mj, d2, rfl, hne, hd1, hd2, ⟨c2, r2, rfl, hc2⟩⟩ :=
      t_DECIMAL_ID_match_props hm
    rw [t_DECIMAL_ID_value] at hv
    rw [splitOnChar_append _ _ (fun x hx => (isDigitCh_ne (hd1 x hx)).2.1),
      splitOnChar_sep_free (fun x hx => (isDigitCh_ne (hd2 x hx)).2.1)] at hv
    dsimp only at hv
    rcases hp1 : parseNat mj with _ | x <;> rw [hp1] at hv
    · exact Option.noConfusion hv
    · rcases hp2 : parseNat (c2 :: r2) with _ | y <;> rw [hp2] at hv
      · exact Option.noConfusion hv
      · simp only [Option.some.injEq, TokValue.vIntPair.injEq] at hv
        obtain ⟨rfl, rfl⟩ := hv
        rw [parseNat_some_eq hp2]
        exact parseNatD_pos r2 hc2

/-- Witness for C10: the INTEGER_ID lexeme `"7"` has value 7 ≥ 1. -/
theorem claim10_numeric_invariants_witness : (1 : Nat) ≤ 7 :=
  claim10_numeric_invariants.1 ['7'] ['7'] [] 7 (by rfl) (by rfl)

end Colonel
